import Mathlib

/-!
Verification of the Kaya AI-analysis core (a Go study application) against
its natural-language specification.

The development shallowly embeds the TypeScript sources:

* the ONNX model rewriters of
  `packages/ai-engine/src/webgpu-converter.ts` (`convertModelForWebGPU`)
  and the WebNN converter (`convertModelForWebNN`);
* the analysis decoding, ko filtering and MCTS loop of the ONNX engine
  (`OnnxEngine`);
* the perspective warp and the SGF position emitter of the
  board-recognition package;
* the corner orderer of `packages/board-recognition/src/corners.ts`.

JavaScript `number` arithmetic is embedded over `ℚ` (exact rationals in
place of IEEE doubles); machine comparisons and branch structure follow
the source line by line.  External collaborators that are not part of the
repository sources (the protobuf wire codec, the neural runtime, the
`@kaya/goboard` board library) are abstracted as parameters or `Option`
valued decode results, as noted at each definition.
-/

namespace Kaya

/-! ## ONNX protobuf data model

Shallow embedding of the subset of the ONNX protobuf schema that the
rewriters declare and consume (`ONNX_SCHEMA` in `webgpu-converter.ts`).
Decoded protobuf messages are plain JS objects; a message field that may be
absent is an `Option`.  Fields of the schema that the rewriter passes
through untouched and never reads are omitted from the embedding.  -/

/-- Embeds `TensorShapeProto.Dimension`: `oneof` of `dimValue` / `dimParam`
(as decoded by protobufjs, each field is simply present or absent). -/
structure Dimension where
  dimValue : Option Int
  dimParam : Option String
deriving DecidableEq, Repr

/-- Embeds `TypeProto.Tensor` (`elemType`, `shape`); the shape is carried
directly as its list of dimensions. -/
structure TensorTypeP where
  elemType : Option Int
  shape : Option (List Dimension)
deriving DecidableEq, Repr

/-- Embeds `TypeProto` (only the `tensorType` arm is used by the rewriter). -/
structure TypeP where
  tensorType : Option TensorTypeP
deriving DecidableEq, Repr

/-- Embeds `ValueInfoProto`. -/
structure ValueInfoProto where
  name : String
  type : Option TypeP
deriving DecidableEq, Repr

/-- Embeds `AttributeProto` restricted to the fields the rewriter touches:
it only ever filters attributes by `name` and copies them wholesale, so the
payload is summarised by the int field `i` (the `axis` payload). -/
structure AttributeProto where
  name : String
  i : Int
deriving DecidableEq, Repr

/-- Embeds `NodeProto` (fields read or written by the rewriter); the source
field `attribute` is a Lean keyword and is named `attr` here. -/
structure NodeProto where
  input : List String
  output : List String
  opType : String
  attr : List AttributeProto
deriving DecidableEq, Repr

/-- Embeds `TensorProto` restricted to the fields the rewriter writes for
its constant-one initializer.  `rawData` is the byte list. -/
structure TensorProto where
  dims : List Int
  dataType : Int
  rawData : List Nat
  name : String
deriving DecidableEq, Repr

/-- Embeds `GraphProto` (fields read or written by the rewriter). -/
structure GraphProto where
  node : List NodeProto
  initializer : List TensorProto
  input : List ValueInfoProto
  output : List ValueInfoProto
  valueInfo : List ValueInfoProto
deriving DecidableEq, Repr

/-- Embeds `ModelProto`: the rewriter reads only `graph`; every other field
round-trips through encode unchanged. -/
structure ModelProto where
  graph : Option GraphProto
deriving DecidableEq, Repr

/-- JS truthiness of a possibly-absent string (`undefined` and the empty
string are falsy). -/
def jsStrTruthy : Option String → Bool
  | some s => s ≠ ""
  | none => false

/-- JS test `!dim.dimValue || Number(dim.dimValue) <= 0` on a
possibly-absent int64 (absent, zero and negative values all pass). -/
def jsDimNonPositive : Option Int → Bool
  | none => true
  | some v => v ≤ 0

/-- Embeds the `isFp16` detection of both converters: the first input
declaration's element type equals `ONNX_FLOAT16 = 10`. -/
def detectFp16 (g : GraphProto) : Bool :=
  match g.input.head? with
  | some vi =>
    match vi.type with
    | some t =>
      match t.tensorType with
      | some tt => tt.elemType = some 10
      | none => false
    | none => false
  | none => false

/-- Raw bytes of the constant-one tensor: `0x00 0x3C` (IEEE-754 half of 1.0)
for FP16 models, else the four little-endian bytes of the IEEE-754 float32
encoding of 1.0 (`00 00 80 3F`). -/
def oneBytes (isFp16 : Bool) : List Nat :=
  if isFp16 then [0x00, 0x3c] else [0x00, 0x00, 0x80, 0x3f]

/-- Name of the constant-one initializer added by the WebGPU converter. -/
def oneNameGPU : String := "__webgpu_const_one"

/-- The constant-one initializer (`dims: [], dataType, rawData, name`)
pushed by the WebGPU converter when a Softplus was decomposed. -/
def oneInitGPU (isFp16 : Bool) : TensorProto :=
  { dims := [], dataType := if isFp16 then 10 else 1,
    rawData := oneBytes isFp16, name := oneNameGPU }

/-! ## Static-dimension pass -/

/-- Embeds the per-`ValueInfoProto` step of the WebGPU `makeStatic`: the
first dimension is made static iff `firstDim.dimParam` is truthy or
`dimValue` is absent/zero/negative. -/
def makeStaticDimGPU (batchSize : Int) (d : Dimension) : Dimension :=
  if jsStrTruthy d.dimParam ∨ jsDimNonPositive d.dimValue then
    { dimValue := some batchSize, dimParam := none }
  else d

/-- WebNN `STATIC_DIMS` table lookup: `batch_size`, `height`, `width`. -/
def staticDimsNN (batchSize boardSize : Int) (name : String) : Option Int :=
  if name = "batch_size" then some batchSize
  else if name = "height" then some boardSize
  else if name = "width" then some boardSize
  else none

/-- Embeds the per-dimension body of the WebNN `makeStatic` loop:

* `if (name && STATIC_DIMS[name] !== undefined)` rewrites a truthy symbolic
  dimension found in the table;
* `else if (!dim.dimParam && (!dim.dimValue || Number(dim.dimValue) <= 0))`
  sets a non-symbolic, non-positive dimension to 1;
* otherwise the dimension is left untouched. -/
def makeStaticDimNN (batchSize boardSize : Int) (d : Dimension) : Dimension :=
  if jsStrTruthy d.dimParam ∧ (staticDimsNN batchSize boardSize (d.dimParam.getD "")).isSome then
    { dimValue := staticDimsNN batchSize boardSize (d.dimParam.getD ""), dimParam := none }
  else if ¬ jsStrTruthy d.dimParam ∧ jsDimNonPositive d.dimValue then
    { dimValue := some 1, dimParam := none }
  else d

/-- Applies a per-dimension rewrite to every dimension of a value info,
mirroring `const dims = vi.type?.tensorType?.shape?.dim; if (!dims ||
dims.length === 0) continue;` — a value info without a populated shape is
skipped. -/
def mapViDims (f : Dimension → Dimension) (vi : ValueInfoProto) : ValueInfoProto :=
  match vi.type with
  | none => vi
  | some t =>
    match t.tensorType with
    | none => vi
    | some tt =>
      match tt.shape with
      | none => vi
      | some dims =>
        if dims = [] then vi
        else
          let tt2 : TensorTypeP := { tt with shape := some (dims.map f) }
          let t2 : TypeP := { t with tensorType := some tt2 }
          { vi with type := some t2 }

/-- Applies a rewrite to the first dimension only (WebGPU `makeStatic`). -/
def mapViFirstDim (f : Dimension → Dimension) (vi : ValueInfoProto) : ValueInfoProto :=
  match vi.type with
  | none => vi
  | some t =>
    match t.tensorType with
    | none => vi
    | some tt =>
      match tt.shape with
      | none => vi
      | some dims =>
        match dims with
        | [] => vi
        | d :: rest =>
          let tt2 : TensorTypeP := { tt with shape := some (f d :: rest) }
          let t2 : TypeP := { t with tensorType := some tt2 }
          { vi with type := some t2 }

/-- WebNN static-dimension pass over one value-info list
(`makeStatic(graph.input / graph.output / graph.valueInfo)`). -/
def makeStaticListNN (batchSize boardSize : Int) (vis : List ValueInfoProto) :
    List ValueInfoProto :=
  vis.map (mapViDims (makeStaticDimNN batchSize boardSize))

/-- WebGPU static-dimension pass over one value-info list. -/
def makeStaticListGPU (batchSize : Int) (vis : List ValueInfoProto) :
    List ValueInfoProto :=
  vis.map (mapViFirstDim (makeStaticDimGPU batchSize))

/-! ## Operator-decomposition pass -/

/-- Intermediate-tensor prefix for the `k`-th decomposed Softplus
(WebGPU converter). -/
def spPrefixGPU (k : Nat) : String := "__sp_" ++ toString k

/-- Intermediate-tensor prefix for the `k`-th decomposed LogSoftmax
(WebGPU converter). -/
def lsPrefixGPU (k : Nat) : String := "__ls_" ++ toString k

/-- A `node.input[0]` / `node.output[0]` access; on a node with an empty
list JS yields `undefined`, which stringifies to `"undefined"` inside the
generated tensor names. -/
def jsHead (l : List String) : String := l.getD 0 "undefined"

/-- The seven replacement nodes pushed for one Softplus node
`y = softplus(x)`: `Abs`, `Neg`, `Exp`, `Add` (with the constant-one
tensor), `Log`, `Relu`, `Add`, computing `relu(x) + log(1 + exp(-abs(x)))`
into `y`. -/
def softplusNodes (p x y oneName : String) : List NodeProto :=
  [ { input := [x], output := [p ++ "_abs"], opType := "Abs", attr := [] },
    { input := [p ++ "_abs"], output := [p ++ "_neg"], opType := "Neg", attr := [] },
    { input := [p ++ "_neg"], output := [p ++ "_exp"], opType := "Exp", attr := [] },
    { input := [p ++ "_exp", oneName], output := [p ++ "_add1"], opType := "Add", attr := [] },
    { input := [p ++ "_add1"], output := [p ++ "_log"], opType := "Log", attr := [] },
    { input := [x], output := [p ++ "_relu"], opType := "Relu", attr := [] },
    { input := [p ++ "_relu", p ++ "_log"], output := [y], opType := "Add", attr := [] } ]

/-- The two replacement nodes pushed for one LogSoftmax node
`y = logsoftmax(x)`: `Softmax` (carrying the filtered `axis` attributes)
followed by `Log`. -/
def logSoftmaxNodes (p x y : String) (axisAttrs : List AttributeProto) : List NodeProto :=
  [ { input := [x], output := [p ++ "_sm"], opType := "Softmax", attr := axisAttrs },
    { input := [p ++ "_sm"], output := [y], opType := "Log", attr := [] } ]

/-- The six value-info entries pushed for the intermediates of one
decomposed Softplus, each copying the type of the node input (the source
deep-copies via `JSON.parse(JSON.stringify(srcVi.type))`). -/
def spValueInfos (p : String) (ty : TypeP) : List ValueInfoProto :=
  [ { name := p ++ "_abs", type := some ty },
    { name := p ++ "_neg", type := some ty },
    { name := p ++ "_exp", type := some ty },
    { name := p ++ "_add1", type := some ty },
    { name := p ++ "_log", type := some ty },
    { name := p ++ "_relu", type := some ty } ]

/-- Source-value-info lookup
`[...(graph.valueInfo || []), ...(graph.input || [])].find(vi => vi.name === x)`
followed by the `srcVi?.type` guard. -/
def findSrcType (lookup : List ValueInfoProto) (x : String) : Option TypeP :=
  match lookup.find? (fun vi => vi.name = x) with
  | some vi => vi.type
  | none => none

/-- Loop state of the operator-decomposition scan (`newNodes`,
`newValueInfos`, `softplusCount`, `logsoftmaxCount`, `needsOneConst`). -/
structure OpPassState where
  newNodes : List NodeProto
  newValueInfos : List ValueInfoProto
  softplusCount : Nat
  logsoftmaxCount : Nat
  needsOneConst : Bool
deriving DecidableEq, Repr

/-- One iteration of `for (const node of graph.node)` in the WebGPU
converter's operator-decomposition pass. -/
def opPassStep (lookup : List ValueInfoProto) (st : OpPassState) (node : NodeProto) :
    OpPassState :=
  if node.opType = "Softplus" then
    let x := jsHead node.input
    let y := jsHead node.output
    let p := spPrefixGPU st.softplusCount
    let vis :=
      match findSrcType lookup x with
      | some ty => spValueInfos p ty
      | none => []
    { newNodes := st.newNodes ++ softplusNodes p x y oneNameGPU,
      newValueInfos := st.newValueInfos ++ vis,
      softplusCount := st.softplusCount + 1,
      logsoftmaxCount := st.logsoftmaxCount,
      needsOneConst := true }
  else if node.opType = "LogSoftmax" then
    let x := jsHead node.input
    let y := jsHead node.output
    let p := lsPrefixGPU st.logsoftmaxCount
    let axisAttrs := node.attr.filter (fun a => a.name = "axis")
    let vis :=
      match findSrcType lookup x with
      | some ty => [ { name := p ++ "_sm", type := some ty : ValueInfoProto } ]
      | none => []
    { newNodes := st.newNodes ++ logSoftmaxNodes p x y axisAttrs,
      newValueInfos := st.newValueInfos ++ vis,
      softplusCount := st.softplusCount,
      logsoftmaxCount := st.logsoftmaxCount + 1,
      needsOneConst := st.needsOneConst }
  else
    { st with newNodes := st.newNodes ++ [node] }

/-- The whole node scan as a fold with initial counters. -/
def opPass (lookup : List ValueInfoProto) (nodes : List NodeProto) : OpPassState :=
  nodes.foldl (opPassStep lookup) ⟨[], [], 0, 0, false⟩

/-- Embeds the graph-level body of `convertModelForWebGPU`: the
static-dimension pass (step 1), then the operator-decomposition pass
(step 2), then the conditional constant-one initializer push and the
value-info append.  The source mutates `graph` in place; the embedding
rebuilds it. -/
def convertGraphWebGPU (g : GraphProto) (batchSize : Int) : GraphProto :=
  let isFp16 := detectFp16 g
  let input1 := makeStaticListGPU batchSize g.input
  let output1 := makeStaticListGPU batchSize g.output
  let valueInfo1 := makeStaticListGPU batchSize g.valueInfo
  let st := opPass (valueInfo1 ++ input1) g.node
  let initializer1 :=
    if st.needsOneConst then g.initializer ++ [oneInitGPU isFp16] else g.initializer
  { node := st.newNodes,
    initializer := initializer1,
    input := input1,
    output := output1,
    valueInfo := valueInfo1 ++ st.newValueInfos }

/-- Outcome of a converter call: a thrown error (rejected promise) or a
`ConversionResult`.  The result's `buffer` field is represented by the
converted `ModelProto` it encodes. -/
inductive ConvertOutcome where
  | failure (msg : String)
  | success (model : ModelProto) (wasConverted : Bool) (batchSize : Int)
deriving DecidableEq, Repr

/-- Condition under which the WebGPU `makeStatic` rewrites (and records a
change for) a value info: its shape is populated and its first dimension is
symbolic-truthy or non-positive. -/
def viTriggersGPU (vi : ValueInfoProto) : Bool :=
  match vi.type with
  | none => false
  | some t =>
    match t.tensorType with
    | none => false
    | some tt =>
      match tt.shape with
      | none => false
      | some dims =>
        match dims with
        | [] => false
        | d :: _ => jsStrTruthy d.dimParam || jsDimNonPositive d.dimValue

/-- Whether the graph-level conversion records any change (`changes`
becomes non-empty, hence `wasConverted`): some `makeStatic` branch fired on
a first dimension, or some Softplus/LogSoftmax was replaced.  Mirrors the
`changes.push` sites of the source. -/
def anyChangeGPU (g : GraphProto) : Bool :=
  (g.input.any viTriggersGPU) ||
  (g.output.any viTriggersGPU) ||
  (g.valueInfo.any viTriggersGPU) ||
  (g.node.any fun n => n.opType = "Softplus") ||
  (g.node.any fun n => n.opType = "LogSoftmax")

/-- Embeds `convertModelForWebGPU`.  The protobufjs `ModelProto.decode`
call is external to the repository; its outcome is the parameter `decoded`
(`none`: decode threw, and the exception propagates out of the converter;
`some m`: the decoded message).  On a decoded model without a graph the
source throws `Model has no graph`. -/
def convertModelForWebGPU (decoded : Option ModelProto) (batchSize : Int) : ConvertOutcome :=
  match decoded with
  | none => .failure "decode error"
  | some m =>
    match m.graph with
    | none => .failure "Model has no graph"
    | some g =>
      .success { m with graph := some (convertGraphWebGPU g batchSize) }
        (anyChangeGPU g) batchSize

/-- Embeds the WebGPU auto-conversion call site in
`AIEngineContext.tsx` (`loadEngine`): the converter call is wrapped in
`try/catch`; on any conversion failure the original buffer is kept, and the
converted buffer replaces it only when `wasConverted` is true.  Buffers are
abstracted by the type `β` with the external protobuf codec `decode` /
`encode`. -/
def autoConvertForWebGPU {β : Type} (decode : β → Option ModelProto)
    (encode : ModelProto → β) (buffer : β) (batchSize : Int) : β × Bool :=
  match convertModelForWebGPU (decode buffer) batchSize with
  | .failure _ => (buffer, false)
  | .success m wasConverted _ =>
    if wasConverted then (encode m, true) else (buffer, false)

/-- Embeds the WebNN static-dimension pass applied to a whole graph
(`convertModelForWebNN`, step 1); the operator-decomposition step of that
converter is identical to the WebGPU one up to name prefixes and is not
re-embedded. -/
def makeStaticGraphNN (g : GraphProto) (batchSize boardSize : Int) : GraphProto :=
  { g with
    input := makeStaticListNN batchSize boardSize g.input,
    output := makeStaticListNN batchSize boardSize g.output,
    valueInfo := makeStaticListNN batchSize boardSize g.valueInfo }

/-! ## Claim C2: behaviour on parse failure -/

/-- C2, counterexample.  A buffer that decodes to a message without a graph
makes `convertModelForWebGPU` throw (`Model has no graph`); it does not
return the original bytes with `wasConverted = false` as the claim states. -/
theorem convertModelForWebGPU_no_graph_throws :
    convertModelForWebGPU (some { graph := none }) 8 =
      ConvertOutcome.failure "Model has no graph" := rfl

/-- C2, amended.  On any parse failure (the protobuf decode throws, or the
decoded message has no graph) the converter raises an error rather than
returning a result; the loading call site in `AIEngineContext.tsx` catches
the error and continues with the original buffer unchanged (paired with a
false auto-converted flag). -/
theorem autoConvertForWebGPU_parse_failure_keeps_original {β : Type}
    (decode : β → Option ModelProto) (encode : ModelProto → β)
    (buffer : β) (batchSize : Int)
    (hfail : (decode buffer).bind ModelProto.graph = none) :
    (∀ m : ModelProto, decode buffer = some m →
      convertModelForWebGPU (decode buffer) batchSize =
        ConvertOutcome.failure "Model has no graph") ∧
    autoConvertForWebGPU decode encode buffer batchSize = (buffer, false) := by
  constructor
  · intro m hm
    rcases hg : m.graph with _ | g
    · simp [convertModelForWebGPU, hm, hg]
    · rw [hm] at hfail
      simp [Option.bind, hg] at hfail
  · unfold autoConvertForWebGPU convertModelForWebGPU
    rcases hd : decode buffer with _ | m
    · rfl
    · rcases hg : m.graph with _ | g
      · simp [hg]
      · rw [hd] at hfail
        simp [Option.bind, hg] at hfail

/-- C2, witness for the amended theorem: a buffer whose decode yields a
graph-less message is kept unchanged by the loading call site. -/
theorem autoConvertForWebGPU_parse_failure_keeps_original_witness :
    ((fun _ : Unit => some ({ graph := none } : ModelProto)) ()).bind ModelProto.graph
      = none ∧
    autoConvertForWebGPU (fun _ : Unit => some ({ graph := none } : ModelProto))
      (fun _ => ()) () 8 = ((), false) :=
  ⟨rfl, (autoConvertForWebGPU_parse_failure_keeps_original
    (fun _ : Unit => some ({ graph := none } : ModelProto)) (fun _ => ()) () 8 rfl).2⟩

/-! ## Claim C3: WebNN static-dimension pass -/

/-- Per-dimension specification of the coprocessor (WebNN) static-dimension
pass, as amended: a concrete positive dimension is untouched; a symbolic
dimension named in the option table becomes the table's value; a symbolic
dimension unknown to the table is left unchanged (the claim's `set to 1`
does not hold for it); a dimension that is neither symbolic nor
concrete-positive is set to 1. -/
def DimSpecNN (batchSize boardSize : Int) (d d2 : Dimension) : Prop :=
  (∀ v : Int, d.dimValue = some v → 0 < v → jsStrTruthy d.dimParam = false → d2 = d) ∧
  (∀ name v, d.dimParam = some name → name ≠ "" →
    staticDimsNN batchSize boardSize name = some v → d2 = ⟨some v, none⟩) ∧
  (∀ name, d.dimParam = some name → name ≠ "" →
    staticDimsNN batchSize boardSize name = none → d2 = d) ∧
  (jsStrTruthy d.dimParam = false → jsDimNonPositive d.dimValue = true →
    d2 = ⟨some 1, none⟩)

/-- The dimensions (if any) declared by a value info. -/
def shapeDims (vi : ValueInfoProto) : Option (List Dimension) :=
  match vi.type with
  | none => none
  | some t =>
    match t.tensorType with
    | none => none
    | some tt => tt.shape

/-- Per-value-info specification of the WebNN static-dimension pass: names
are preserved; a populated shape is rewritten dimension by dimension
according to `DimSpecNN`; a value info without a populated shape is left
whole. -/
def ViSpecNN (batchSize boardSize : Int) (vi vi2 : ValueInfoProto) : Prop :=
  vi2.name = vi.name ∧
  (∀ dims, shapeDims vi = some dims → dims ≠ [] →
    ∃ dims2, shapeDims vi2 = some dims2 ∧
      List.Forall₂ (DimSpecNN batchSize boardSize) dims dims2) ∧
  (shapeDims vi = none ∨ shapeDims vi = some [] → vi2 = vi)

/-- The per-dimension rewrite of the WebNN pass meets `DimSpecNN`. -/
theorem makeStaticDimNN_spec (batchSize boardSize : Int) (d : Dimension) :
    DimSpecNN batchSize boardSize d (makeStaticDimNN batchSize boardSize d) := by
  refine ⟨?_, ?_, ?_, ?_⟩
  · intro v hv hpos hparam
    unfold makeStaticDimNN
    rw [if_neg, if_neg]
    · simp [hparam, hv, jsDimNonPositive]
      omega
    · simp [hparam]
  · intro name v hname hne htab
    unfold makeStaticDimNN
    rw [if_pos]
    · simp [hname, Option.getD, htab]
    · simp [jsStrTruthy, hname, hne, Option.getD, htab]
  · intro name hname hne htab
    unfold makeStaticDimNN
    rw [if_neg, if_neg]
    · simp [jsStrTruthy, hname, hne]
    · simp [jsStrTruthy, hname, hne, Option.getD, htab]
  · intro hparam hval
    unfold makeStaticDimNN
    rw [if_neg, if_pos]
    · simp [hparam, hval]
    · simp [hparam]

/-- A mapped value info meets `ViSpecNN`. -/
theorem mapViDims_spec (batchSize boardSize : Int) (vi : ValueInfoProto) :
    ViSpecNN batchSize boardSize vi
      (mapViDims (makeStaticDimNN batchSize boardSize) vi) := by
  rcases vi with ⟨nm, ty⟩
  refine ⟨?_, ?_, ?_⟩
  · rcases ty with _ | ⟨tt⟩
    · rfl
    · rcases tt with _ | ⟨tt2⟩
      · rfl
      · rcases htt : tt2.shape with _ | dims
        · simp [mapViDims, htt]
        · by_cases hd : dims = []
          · simp [mapViDims, htt, hd]
          · simp [mapViDims, htt, hd]
  · intro dims hdims hne
    rcases ty with _ | ⟨tt⟩
    · simp [shapeDims] at hdims
    · rcases tt with _ | ⟨tt2⟩
      · simp [shapeDims] at hdims
      · simp [shapeDims] at hdims
        refine ⟨dims.map (makeStaticDimNN batchSize boardSize), ?_, ?_⟩
        · simp [mapViDims, hdims, hne, shapeDims]
        · rw [List.forall₂_map_right_iff]
          exact List.forall₂_same.mpr (fun d _ => makeStaticDimNN_spec _ _ d)
  · intro h
    rcases ty with _ | ⟨tt⟩
    · rfl
    · rcases tt with _ | ⟨tt2⟩
      · rfl
      · rcases htt : tt2.shape with _ | dims
        · simp [mapViDims, htt]
        · rcases h with h | h
          · simp [shapeDims, htt] at h
          · simp [shapeDims, htt] at h
            simp [mapViDims, htt, h]

/-- C3, amended theorem.  In the coprocessor-profile static-dimension pass,
every tensor declaration of the graph's inputs, outputs and intermediate
value-info is rewritten dimension by dimension: a concrete positive
dimension is left unchanged; a symbolic dimension named `batch_size`,
`height` or `width` becomes the corresponding option value; a symbolic
dimension unknown to the option set is left unchanged (not set to 1, as the
claim states); a dimension that is neither symbolic nor concrete-positive
is set to 1. -/
theorem makeStaticGraphNN_spec (batchSize boardSize : Int) (g : GraphProto) :
    List.Forall₂ (ViSpecNN batchSize boardSize) g.input
      (makeStaticGraphNN g batchSize boardSize).input ∧
    List.Forall₂ (ViSpecNN batchSize boardSize) g.output
      (makeStaticGraphNN g batchSize boardSize).output ∧
    List.Forall₂ (ViSpecNN batchSize boardSize) g.valueInfo
      (makeStaticGraphNN g batchSize boardSize).valueInfo := by
  refine ⟨?_, ?_, ?_⟩ <;>
    · show List.Forall₂ _ _ (List.map _ _)
      rw [List.forall₂_map_right_iff]
      exact List.forall₂_same.mpr (fun vi _ => mapViDims_spec _ _ vi)

/-- C3, counterexample input: a graph whose single input declares one
dimension that is symbolic (`dimParam = "foo"`) and unknown to the option
set. -/
def c3Graph : GraphProto :=
  let d : Dimension := { dimValue := none, dimParam := some "foo" }
  let tt : TensorTypeP := { elemType := some 1, shape := some [d] }
  let t : TypeP := { tensorType := some tt }
  { node := [], initializer := [],
    input := [ { name := "x", type := some t } ],
    output := [], valueInfo := [] }

/-- C3, counterexample.  The pass leaves the symbolic-but-unknown dimension
completely unchanged — still symbolic, with no concrete value — whereas the
claim states it is set to 1. -/
theorem makeStaticGraphNN_unknown_param_unchanged :
    makeStaticGraphNN c3Graph 1 19 = c3Graph ∧
    ({ dimValue := none, dimParam := some "foo" } : Dimension) ≠
      { dimValue := some 1, dimParam := none } := by
  constructor
  · decide
  · decide

/-! ## Claim C1: operator decomposition -/

/-- Count of nodes with a given operator type. -/
def countOp (nodes : List NodeProto) (op : String) : Nat :=
  nodes.countP (fun n => decide (n.opType = op))

/-- Placeholder node for out-of-range indexing in statements. -/
def defNode : NodeProto := { input := [], output := [], opType := "", attr := [] }

theorem countOp_append (l₁ l₂ : List NodeProto) (op : String) :
    countOp (l₁ ++ l₂) op = countOp l₁ op + countOp l₂ op :=
  List.countP_append _ _ _

theorem countOp_softplusNodes (p x y one op : String)
    (h : op = "Softplus" ∨ op = "LogSoftmax") :
    countOp (softplusNodes p x y one) op = 0 := by
  rcases h with h | h <;> subst h <;> simp [softplusNodes, countOp, List.countP_cons]

theorem countOp_logSoftmaxNodes (p x y op : String) (attrs : List AttributeProto)
    (h : op = "Softplus" ∨ op = "LogSoftmax") :
    countOp (logSoftmaxNodes p x y attrs) op = 0 := by
  rcases h with h | h <;> subst h <;> simp [logSoftmaxNodes, countOp, List.countP_cons]

/-- The softplus counter advances exactly on Softplus nodes. -/
theorem opPassStep_softplusCount (lookup : List ValueInfoProto) (st : OpPassState)
    (n : NodeProto) :
    (opPassStep lookup st n).softplusCount =
      st.softplusCount + (if n.opType = "Softplus" then 1 else 0) := by
  unfold opPassStep
  by_cases h1 : n.opType = "Softplus"
  · simp [h1]
  · by_cases h2 : n.opType = "LogSoftmax" <;> simp [h1, h2]

/-- The logsoftmax counter advances exactly on LogSoftmax nodes. -/
theorem opPassStep_logsoftmaxCount (lookup : List ValueInfoProto) (st : OpPassState)
    (n : NodeProto) :
    (opPassStep lookup st n).logsoftmaxCount =
      st.logsoftmaxCount + (if n.opType = "LogSoftmax" then 1 else 0) := by
  unfold opPassStep
  by_cases h1 : n.opType = "Softplus"
  · simp [h1]
  · by_cases h2 : n.opType = "LogSoftmax" <;> simp [h1, h2]

/-- The constant-one flag is set exactly by Softplus nodes. -/
theorem opPassStep_needsOneConst (lookup : List ValueInfoProto) (st : OpPassState)
    (n : NodeProto) :
    (opPassStep lookup st n).needsOneConst =
      (st.needsOneConst || decide (n.opType = "Softplus")) := by
  unfold opPassStep
  by_cases h1 : n.opType = "Softplus"
  · simp [h1]
  · by_cases h2 : n.opType = "LogSoftmax" <;> simp [h1, h2]

/-- Each step only appends to the accumulated node list. -/
theorem opPassStep_newNodes_append (lookup : List ValueInfoProto) (st : OpPassState)
    (n : NodeProto) :
    ∃ seg, (opPassStep lookup st n).newNodes = st.newNodes ++ seg ∧
      countOp seg "Softplus" = 0 ∧ countOp seg "LogSoftmax" = 0 ∧
      (¬ (n.opType = "Softplus" ∨ n.opType = "LogSoftmax") → seg = [n]) := by
  by_cases h1 : n.opType = "Softplus"
  · refine ⟨softplusNodes (spPrefixGPU st.softplusCount) (jsHead n.input)
      (jsHead n.output) oneNameGPU, ?_, ?_, ?_, by simp [h1]⟩
    · unfold opPassStep; simp [h1]
    · exact countOp_softplusNodes _ _ _ _ _ (Or.inl rfl)
    · exact countOp_softplusNodes _ _ _ _ _ (Or.inr rfl)
  · by_cases h2 : n.opType = "LogSoftmax"
    · refine ⟨logSoftmaxNodes (lsPrefixGPU st.logsoftmaxCount) (jsHead n.input)
        (jsHead n.output) (n.attr.filter (fun a => decide (a.name = "axis"))),
        ?_, ?_, ?_, by simp [h2]⟩
      · unfold opPassStep; simp [h1, h2]
      · exact countOp_logSoftmaxNodes _ _ _ _ _ (Or.inl rfl)
      · exact countOp_logSoftmaxNodes _ _ _ _ _ (Or.inr rfl)
    · refine ⟨[n], ?_, ?_, ?_, fun _ => rfl⟩
      · unfold opPassStep; simp [h1, h2]
      · simp [countOp, List.countP_cons, h1]
      · simp [countOp, List.countP_cons, h2]

/-- The fold only appends to the accumulated node list, and everything it
appends is free of Softplus and LogSoftmax nodes. -/
theorem opPass_fold_newNodes (lookup : List ValueInfoProto) (nodes : List NodeProto) :
    ∀ st : OpPassState, ∃ tail,
      (nodes.foldl (opPassStep lookup) st).newNodes = st.newNodes ++ tail ∧
      countOp tail "Softplus" = 0 ∧ countOp tail "LogSoftmax" = 0 := by
  induction nodes with
  | nil => exact fun st => ⟨[], by simp [countOp]⟩
  | cons n rest ih =>
    intro st
    obtain ⟨seg, hseg, hs1, hs2, -⟩ := opPassStep_newNodes_append lookup st n
    obtain ⟨tail, htail, ht1, ht2⟩ := ih (opPassStep lookup st n)
    refine ⟨seg ++ tail, ?_, ?_, ?_⟩
    · simp only [List.foldl_cons, htail, hseg, List.append_assoc]
    · rw [countOp_append]; omega
    · rw [countOp_append]; omega

/-- The final flag of the fold is the starting flag joined with the
presence of a Softplus node. -/
theorem opPass_fold_needsOneConst (lookup : List ValueInfoProto)
    (nodes : List NodeProto) :
    ∀ st : OpPassState,
      (nodes.foldl (opPassStep lookup) st).needsOneConst =
        (st.needsOneConst || nodes.any (fun n => decide (n.opType = "Softplus"))) := by
  induction nodes with
  | nil => simp
  | cons n rest ih =>
    intro st
    simp only [List.foldl_cons, List.any_cons]
    rw [ih, opPassStep_needsOneConst]
    by_cases h : n.opType = "Softplus" <;> simp [h, Bool.or_assoc]

/-- The `k`-th node being a Softplus, the fold's output contains its seven
replacement nodes as one contiguous segment, named by the running softplus
counter. -/
theorem opPass_fold_softplus_seg (lookup : List ValueInfoProto) :
    ∀ (nodes : List NodeProto) (st : OpPassState) (k : Nat), k < nodes.length →
      (nodes.getD k defNode).opType = "Softplus" →
      ∃ pre suf, (nodes.foldl (opPassStep lookup) st).newNodes =
        pre ++ softplusNodes
          (spPrefixGPU (st.softplusCount + countOp (nodes.take k) "Softplus"))
          (jsHead (nodes.getD k defNode).input) (jsHead (nodes.getD k defNode).output)
          oneNameGPU ++ suf := by
  intro nodes
  induction nodes with
  | nil => intro st k hk; simp at hk
  | cons n rest ih =>
    intro st k hk hop
    cases k with
    | zero =>
      simp only [List.getD_cons_zero] at hop
      obtain ⟨tail, htail, -, -⟩ := opPass_fold_newNodes lookup rest (opPassStep lookup st n)
      refine ⟨st.newNodes, tail, ?_⟩
      simp only [List.foldl_cons, htail]
      have hstep : (opPassStep lookup st n).newNodes =
          st.newNodes ++ softplusNodes (spPrefixGPU st.softplusCount)
            (jsHead n.input) (jsHead n.output) oneNameGPU := by
        unfold opPassStep
        simp [hop]
      rw [hstep]
      simp [List.append_assoc, List.getD_cons_zero, countOp]
    | succ k =>
      simp only [List.getD_cons_succ] at hop ⊢
      have hk' : k < rest.length := by
        simp only [List.length_cons] at hk; omega
      obtain ⟨pre, suf, hps⟩ := ih (opPassStep lookup st n) k hk' hop
      refine ⟨pre, suf, ?_⟩
      simp only [List.foldl_cons]
      have hcount : (opPassStep lookup st n).softplusCount +
          countOp (List.take k rest) "Softplus" =
          st.softplusCount + countOp (List.take (k + 1) (n :: rest)) "Softplus" := by
        rw [opPassStep_softplusCount]
        simp only [List.take_succ_cons, countOp, List.countP_cons]
        by_cases h : n.opType = "Softplus" <;> simp [h] <;> omega
      rw [← hcount]
      exact hps

/-- The `k`-th node being a LogSoftmax, the fold's output contains its two
replacement nodes (`Softmax` with the preserved `axis` attributes, then
`Log`) as one contiguous segment. -/
theorem opPass_fold_logsoftmax_seg (lookup : List ValueInfoProto) :
    ∀ (nodes : List NodeProto) (st : OpPassState) (k : Nat), k < nodes.length →
      (nodes.getD k defNode).opType = "LogSoftmax" →
      ∃ pre suf, (nodes.foldl (opPassStep lookup) st).newNodes =
        pre ++ logSoftmaxNodes
          (lsPrefixGPU (st.logsoftmaxCount + countOp (nodes.take k) "LogSoftmax"))
          (jsHead (nodes.getD k defNode).input) (jsHead (nodes.getD k defNode).output)
          ((nodes.getD k defNode).attr.filter (fun a => decide (a.name = "axis"))) ++ suf := by
  intro nodes
  induction nodes with
  | nil => intro st k hk; simp at hk
  | cons n rest ih =>
    intro st k hk hop
    cases k with
    | zero =>
      simp only [List.getD_cons_zero] at hop
      obtain ⟨tail, htail, -, -⟩ := opPass_fold_newNodes lookup rest (opPassStep lookup st n)
      refine ⟨st.newNodes, tail, ?_⟩
      simp only [List.foldl_cons, htail]
      have hne : ¬ n.opType = "Softplus" := by rw [hop]; decide
      have hstep : (opPassStep lookup st n).newNodes =
          st.newNodes ++ logSoftmaxNodes (lsPrefixGPU st.logsoftmaxCount)
            (jsHead n.input) (jsHead n.output)
            (n.attr.filter (fun a => decide (a.name = "axis"))) := by
        unfold opPassStep
        simp [hne, hop]
      rw [hstep]
      simp [List.append_assoc, List.getD_cons_zero, countOp]
    | succ k =>
      simp only [List.getD_cons_succ] at hop ⊢
      have hk' : k < rest.length := by
        simp only [List.length_cons] at hk; omega
      obtain ⟨pre, suf, hps⟩ := ih (opPassStep lookup st n) k hk' hop
      refine ⟨pre, suf, ?_⟩
      simp only [List.foldl_cons]
      have hcount : (opPassStep lookup st n).logsoftmaxCount +
          countOp (List.take k rest) "LogSoftmax" =
          st.logsoftmaxCount + countOp (List.take (k + 1) (n :: rest)) "LogSoftmax" := by
        rw [opPassStep_logsoftmaxCount]
        simp only [List.take_succ_cons, countOp, List.countP_cons]
        by_cases h : n.opType = "LogSoftmax" <;> simp [h] <;> omega
      rw [← hcount]
      exact hps

/-- C1.  For every decoded graph, the WebGPU operator-decomposition pass:
removes every Softplus and every LogSoftmax node; replaces the `k`-th
Softplus node (input `x`, output `y`) by the contiguous seven-node segment
`Abs, Neg, Exp, Add`(with the constant-one tensor)`, Log, Relu, Add`
computing `relu(x) + log(1 + exp(-abs(x)))` into `y`; replaces the `k`-th
LogSoftmax node by `Softmax` (with the `axis` attributes preserved)
followed by `Log`; and, exactly when at least one Softplus was present,
appends exactly one new constant-one initializer whose raw data is the two
bytes `0x00 0x3C` for a model whose first input element type is 16-bit
half, else the four-byte little-endian IEEE-754 float32 encoding of 1.0. -/
theorem convertGraphWebGPU_spec (g : GraphProto) (batchSize : Int) :
    countOp (convertGraphWebGPU g batchSize).node "Softplus" = 0 ∧
    countOp (convertGraphWebGPU g batchSize).node "LogSoftmax" = 0 ∧
    (∀ k, k < g.node.length → (g.node.getD k defNode).opType = "Softplus" →
      ∃ pre suf, (convertGraphWebGPU g batchSize).node =
        pre ++ softplusNodes (spPrefixGPU (countOp (g.node.take k) "Softplus"))
          (jsHead (g.node.getD k defNode).input)
          (jsHead (g.node.getD k defNode).output) oneNameGPU ++ suf) ∧
    (∀ k, k < g.node.length → (g.node.getD k defNode).opType = "LogSoftmax" →
      ∃ pre suf, (convertGraphWebGPU g batchSize).node =
        pre ++ logSoftmaxNodes (lsPrefixGPU (countOp (g.node.take k) "LogSoftmax"))
          (jsHead (g.node.getD k defNode).input)
          (jsHead (g.node.getD k defNode).output)
          ((g.node.getD k defNode).attr.filter (fun a => decide (a.name = "axis"))) ++ suf) ∧
    ((∃ n ∈ g.node, n.opType = "Softplus") →
      (convertGraphWebGPU g batchSize).initializer =
        g.initializer ++
          [ ({ dims := [],
               dataType := (if detectFp16 g then 10 else 1),
               rawData :=
                 (if detectFp16 g then [0x00, 0x3c] else [0x00, 0x00, 0x80, 0x3f]),
               name := "__webgpu_const_one" } : TensorProto) ] ) ∧
    ((¬ ∃ n ∈ g.node, n.opType = "Softplus") →
      (convertGraphWebGPU g batchSize).initializer = g.initializer) := by
  set lookup := makeStaticListGPU batchSize g.valueInfo ++ makeStaticListGPU batchSize g.input
    with hlookup
  have hnode : (convertGraphWebGPU g batchSize).node =
      (opPass lookup g.node).newNodes := rfl
  refine ⟨?_, ?_, ?_, ?_, ?_, ?_⟩
  · rw [hnode]
    obtain ⟨tail, htail, h1, -⟩ := opPass_fold_newNodes lookup g.node ⟨[], [], 0, 0, false⟩
    unfold opPass
    rw [htail]
    simpa [countOp] using h1
  · rw [hnode]
    obtain ⟨tail, htail, -, h2⟩ := opPass_fold_newNodes lookup g.node ⟨[], [], 0, 0, false⟩
    unfold opPass
    rw [htail]
    simpa [countOp] using h2
  · intro k hk hop
    rw [hnode]
    have := opPass_fold_softplus_seg lookup g.node ⟨[], [], 0, 0, false⟩ k hk hop
    simpa [opPass] using this
  · intro k hk hop
    rw [hnode]
    have := opPass_fold_logsoftmax_seg lookup g.node ⟨[], [], 0, 0, false⟩ k hk hop
    simpa [opPass] using this
  · intro hex
    have hflag : (opPass lookup g.node).needsOneConst = true := by
      unfold opPass
      rw [opPass_fold_needsOneConst]
      obtain ⟨n, hn, hop⟩ := hex
      simp only [Bool.false_or]
      exact List.any_eq_true.mpr ⟨n, hn, by simp [hop]⟩
    show (if (opPass lookup g.node).needsOneConst then
        g.initializer ++ [oneInitGPU (detectFp16 g)] else g.initializer) = _
    rw [hflag]
    simp [oneInitGPU, oneBytes, oneNameGPU]
  · intro hex
    have hflag : (opPass lookup g.node).needsOneConst = false := by
      unfold opPass
      rw [opPass_fold_needsOneConst]
      simp only [Bool.false_or]
      by_contra hany
      rw [Bool.not_eq_false, List.any_eq_true] at hany
      obtain ⟨n, hn, hop⟩ := hany
      exact hex ⟨n, hn, by simpa using hop⟩
    show (if (opPass lookup g.node).needsOneConst then
        g.initializer ++ [oneInitGPU (detectFp16 g)] else g.initializer) = _
    rw [hflag]
    simp

/-! ## ONNX engine: output decoding, ko filter, side to move

Shallow embedding of the decoding parts of `OnnxEngine` (the engine file's
`processBatchResults`, `_getKoVertex`, `_filterKoMoves`,
`analyzePosition`).  JS numbers are embedded as `ℚ`; the runtime's
`Math.exp` is an abstract parameter, since the properties proved here are
independent of it. -/

/-- One move suggestion of an `AnalysisResult`. -/
structure MoveSuggestion where
  move : String
  probability : ℚ
deriving DecidableEq, Repr

/-- The analysis record assembled by the engine.  `visits` is only set on
the MCTS path (`undefined` on a plain single evaluation). -/
structure AnalysisResult where
  moveSuggestions : List MoveSuggestion
  winRate : ℚ
  scoreLead : ℚ
  currentTurn : String
  ownership : Option (List ℚ)
  visits : Option Nat
deriving DecidableEq, Repr

/-- Ko restriction as stored on the board (`board._koInfo`): the sign of
the side forbidden to recapture, and the vertex. -/
structure KoInfo where
  sign : Int
  vertex : Int × Int
deriving DecidableEq, Repr

/-- The engine's GTP column alphabet (the letter I is skipped). -/
def gtpLetters : List Char := "ABCDEFGHJKLMNOPQRST".toList

/-- JS `letters[i]` for an Int index: one-character string in range,
`undefined` stringified outside (the engine only produces in-range
indices). -/
def letterAt (i : Int) : String :=
  if 0 ≤ i ∧ i < 19 then String.mk [gtpLetters.getD i.toNat 'A'] else "undefined"

/-- Embeds `_getKoVertex`: the GTP string of the ko-forbidden vertex when
the ko belongs to the side to move, else `null`. -/
def getKoVertex (koInfo : Option KoInfo) (pla : Int) (size : Int) : Option String :=
  match koInfo with
  | none => none
  | some k =>
    if k.sign ≠ pla ∨ k.vertex.1 = -1 then none
    else some (letterAt k.vertex.1 ++ toString (size - k.vertex.2))

/-- Sum of the probabilities of a suggestion list. -/
def sumProbs (l : List MoveSuggestion) : ℚ := (l.map (fun s => s.probability)).sum

/-- The renormalisation step of `_filterKoMoves`: divide every surviving
probability by the surviving total. -/
def rescale (flt : List MoveSuggestion) : List MoveSuggestion :=
  flt.map (fun s => { s with probability := s.probability / sumProbs flt })

/-- Embeds `_filterKoMoves`: drop every suggestion whose move equals the ko
vertex string, then divide each surviving probability by the surviving
total when that total is positive (the source's locals `filtered` and
`total` appear here as the filtered list and its `sumProbs`). -/
def filterKoMoves (result : AnalysisResult) (koInfo : Option KoInfo) (pla : Int)
    (size : Int) : AnalysisResult :=
  match getKoVertex koInfo pla size with
  | none => result
  | some koMove =>
    if 0 < sumProbs (result.moveSuggestions.filter (fun s => s.move ≠ koMove)) then
      { result with moveSuggestions := rescale (result.moveSuggestions.filter (fun s => s.move ≠ koMove)) }
    else
      { result with moveSuggestions := result.moveSuggestions.filter (fun s => s.move ≠ koMove) }

/-- Embeds the ownership decoding line of `processBatchResults`:
`ownership ? Array.from(ownership).map(v => v * pla) : undefined` — a sign
flip into Black's frame and nothing else (no clamping). -/
def decodeOwnership (ownership : Option (List ℚ)) (pla : Int) : Option (List ℚ) :=
  match ownership with
  | none => none
  | some raw => some (raw.map (fun v => v * (pla : ℚ)))

/-- JS max-logit scan `let maxLogit = -Infinity; …` over a non-empty logit
vector (an empty policy head does not occur; 0 stands in for `-Infinity`
there). -/
def maxLogit : List ℚ → ℚ
  | [] => 0
  | p :: rest => rest.foldl (fun m q => if m < q then q else m) p

/-- Embeds the per-item decoding loop body of `processBatchResults`: value
softmax and Black-frame win rate, Black-frame score lead, policy softmax,
top-10 index extraction, coordinate strings, ownership sign flip.  `exp`
abstracts `Math.exp`; `policy`, `value`, `miscvalue`, `ownership` are the
per-item slices of the runtime outputs. -/
def decodeItem (exp : ℚ → ℚ) (policy value miscvalue : List ℚ)
    (ownership : Option (List ℚ)) (pla : Int) (size : Nat) : AnalysisResult :=
  let e0 := exp (value.getD 0 0)
  let e1 := exp (value.getD 1 0)
  let e2 := exp (value.getD 2 0)
  let sumValue := e0 + e1 + e2
  let winrateCurrentPlayer := e0 / sumValue
  let blackWinrate := if pla = 1 then winrateCurrentPlayer else 1 - winrateCurrentPlayer
  let leadCurrentPlayer := miscvalue.getD 2 0 * 20
  let blackLead := leadCurrentPlayer * (pla : ℚ)
  let numMoves := policy.length
  let m := maxLogit policy
  let probsRaw := policy.map (fun p => exp (p - m))
  let sumP := probsRaw.sum
  let probs := probsRaw.map (fun p => p / sumP)
  let indices := (List.range numMoves).mergeSort
    (fun a b => decide (probs.getD b 0 ≤ probs.getD a 0))
  let moveSuggestions := (indices.take 10).map (fun idx =>
    if idx = size * size then
      { move := "PASS", probability := probs.getD idx 0 : MoveSuggestion }
    else
      let y := idx / size
      let x := idx % size
      { move := letterAt x ++ toString ((size : Int) - y),
        probability := probs.getD idx 0 : MoveSuggestion })
  { moveSuggestions := moveSuggestions,
    winRate := blackWinrate,
    scoreLead := blackLead,
    currentTurn := if pla = 1 then "B" else "W",
    ownership := decodeOwnership ownership pla,
    visits := none }

/-- Count of board points carrying the sign `v`. -/
def countStones (signMap : List (List Int)) (v : Int) : Nat :=
  (signMap.map (fun row => row.countP (fun s => decide (s = v)))).sum

/-- Embeds the current-player determination of `analyzePosition`: a truthy
`options.nextToPlay` selects by comparison with `W`; otherwise the side is
inferred from the stone counts (equal counts mean Black). -/
def determineNextPla (nextToPlay : Option String) (signMap : List (List Int)) : Int :=
  if jsStrTruthy nextToPlay then
    (if nextToPlay.getD "" = "W" then -1 else 1)
  else
    (if countStones signMap 1 = countStones signMap (-1) then 1 else -1)

/-! ## Claim C5: ko filter -/

theorem sumProbs_nil : sumProbs [] = 0 := rfl

theorem sumProbs_cons (a : MoveSuggestion) (l : List MoveSuggestion) :
    sumProbs (a :: l) = a.probability + sumProbs l := by
  simp [sumProbs]

/-- Rescaling preserves the moves, in order. -/
theorem rescale_moves (flt : List MoveSuggestion) :
    (rescale flt).map (fun s => s.move) = flt.map (fun s => s.move) := by
  unfold rescale
  rw [List.map_map]
  exact List.map_congr_left (fun a _ => rfl)

/-- Dividing every probability by a constant divides the sum. -/
theorem sumProbs_map_div (flt : List MoveSuggestion) (t : ℚ) :
    sumProbs (flt.map (fun s => { s with probability := s.probability / t })) =
      sumProbs flt / t := by
  induction flt with
  | nil => simp [sumProbs]
  | cons a l ih =>
    rw [List.map_cons, sumProbs_cons, sumProbs_cons, ih, add_div]

/-- Rescaling by a non-zero total makes the probabilities sum to 1. -/
theorem sumProbs_rescale (flt : List MoveSuggestion) (h : sumProbs flt ≠ 0) :
    sumProbs (rescale flt) = 1 := by
  unfold rescale
  rw [sumProbs_map_div]
  exact div_self h

/-- C5, amended theorem.  When no ko vertex applies the suggestion list is
returned unchanged; with a ko vertex, exactly the suggestions whose move
equals the vertex string are removed (the surviving moves, in order, are
the filtered originals), and when the surviving probability total is
positive the probabilities are renormalised so that they sum exactly to 1.
(The claim's stronger reading — sum 1 whenever at least one suggestion
survives — fails when all survivors carry probability 0.) -/
theorem filterKoMoves_spec (result : AnalysisResult) (koInfo : Option KoInfo)
    (pla : Int) (size : Int) :
    (getKoVertex koInfo pla size = none →
      filterKoMoves result koInfo pla size = result) ∧
    (∀ koMove, getKoVertex koInfo pla size = some koMove →
      ((filterKoMoves result koInfo pla size).moveSuggestions.map
          (fun s => s.move) =
        (result.moveSuggestions.filter (fun s => s.move ≠ koMove)).map
          (fun s => s.move)) ∧
      (0 < sumProbs (result.moveSuggestions.filter (fun s => s.move ≠ koMove)) →
        sumProbs (filterKoMoves result koInfo pla size).moveSuggestions = 1)) := by
  constructor
  · intro h
    unfold filterKoMoves
    rw [h]
  · intro koMove h
    have hunf : filterKoMoves result koInfo pla size =
        (if 0 < sumProbs (result.moveSuggestions.filter (fun s => s.move ≠ koMove)) then
          { result with moveSuggestions := rescale (result.moveSuggestions.filter (fun s => s.move ≠ koMove)) }
        else
          { result with moveSuggestions := result.moveSuggestions.filter (fun s => s.move ≠ koMove) }) := by
      unfold filterKoMoves
      rw [h]
    by_cases hp : 0 < sumProbs (result.moveSuggestions.filter (fun s => s.move ≠ koMove))
    · rw [hunf, if_pos hp]
      exact ⟨rescale_moves _, fun _ => sumProbs_rescale _ (ne_of_gt hp)⟩
    · rw [hunf, if_neg hp]
      exact ⟨rfl, fun hq => absurd hq hp⟩

/-- C5, counterexample input: a result whose survivor carries
probability 0. -/
def c5Result : AnalysisResult :=
  { moveSuggestions := [ { move := "A1", probability := 0 },
                         { move := "B1", probability := 1 } ],
    winRate := 1/2, scoreLead := 0, currentTurn := "B",
    ownership := none, visits := none }

/-- C5, counterexample.  With the ko vertex at B1 for the side to move, the
suggestion B1 is removed; one suggestion (A1, probability 0) survives, yet
the remaining probabilities sum to 0, not 1 — the filter only renormalises
when the surviving total is positive. -/
theorem filterKoMoves_zero_survivor_not_normalised :
    (filterKoMoves c5Result (some { sign := 1, vertex := (1, 8) }) 1 9).moveSuggestions =
      [ { move := "A1", probability := 0 } ] ∧
    sumProbs (filterKoMoves c5Result
      (some { sign := 1, vertex := (1, 8) }) 1 9).moveSuggestions ≠ 1 := by
  have hko : getKoVertex (some { sign := 1, vertex := (1, 8) }) 1 9 = some "B1" := by
    unfold getKoVertex letterAt
    norm_num
    rfl
  have hfil : (c5Result.moveSuggestions.filter (fun s => s.move ≠ "B1")) =
      [ { move := "A1", probability := 0 } ] := by
    simp [c5Result, List.filter]
  have hsum : sumProbs ([ { move := "A1", probability := 0 } ] : List MoveSuggestion) = 0 := by
    simp [sumProbs]
  have hres : (filterKoMoves c5Result (some { sign := 1, vertex := (1, 8) }) 1 9).moveSuggestions =
      [ { move := "A1", probability := 0 } ] := by
    unfold filterKoMoves
    rw [hko]
    show (if 0 < sumProbs (c5Result.moveSuggestions.filter (fun s => s.move ≠ "B1")) then
        { c5Result with moveSuggestions := rescale (c5Result.moveSuggestions.filter (fun s => s.move ≠ "B1")) }
      else
        { c5Result with moveSuggestions := c5Result.moveSuggestions.filter (fun s => s.move ≠ "B1") }).moveSuggestions = _
    rw [if_neg (by rw [hfil, hsum]; norm_num)]
    rw [hfil]
  refine ⟨hres, ?_⟩
  rw [hres, hsum]
  norm_num

/-! ## Claim C6: ownership decoding -/

/-- C6, amended theorem.  The ownership head, when present, is sign-flipped
into Black's frame entry by entry (multiplied by +1 when Black is the
current player, by −1 when White is) and nothing else: no clamping is
applied, so the returned entries lie in [−1, 1] exactly when the raw
runtime values already do (shown here: in-range raw values stay in range
for either side to move). -/
theorem decodeItem_ownership_spec (exp : ℚ → ℚ) (policy value miscvalue : List ℚ)
    (ownership : Option (List ℚ)) (pla : Int) (size : Nat) :
    (decodeItem exp policy value miscvalue ownership pla size).ownership =
      decodeOwnership ownership pla ∧
    (∀ raw, ownership = some raw →
      decodeOwnership ownership pla = some (raw.map (fun v => v * (pla : ℚ)))) ∧
    ((pla = 1 ∨ pla = -1) → ∀ raw, ownership = some raw →
      (∀ v ∈ raw, |v| ≤ 1) →
      ∀ w ∈ raw.map (fun v => v * (pla : ℚ)), |w| ≤ 1) := by
  refine ⟨rfl, ?_, ?_⟩
  · intro raw hraw
    rw [hraw]
    rfl
  · intro hpla raw hraw hin w hw
    rw [List.mem_map] at hw
    obtain ⟨v, hv, hvw⟩ := hw
    rcases hpla with h1 | h1 <;> subst h1 <;> rw [← hvw]
    · simpa using hin v hv
    · simp only [Int.cast_neg, Int.cast_one, mul_neg, mul_one, abs_neg]
      exact hin v hv

/-- C6, counterexample.  With a raw ownership value 2 (out of range) and
Black to move, the decoded result carries the entry 2 unchanged — outside
[−1, 1] — because the code performs no clamping. -/
theorem decodeItem_ownership_not_clamped :
    (decodeItem (fun q => q) [0, 0] [0, 0, 0] [0, 0, 0] (some [2]) 1 1).ownership =
      some [2] ∧ ¬ ((2 : ℚ) ≤ 1) := by
  constructor
  · show decodeOwnership (some [2]) 1 = some [2]
    norm_num [decodeOwnership]
  · norm_num

/-! ## Claim C10: side to move -/

/-- C10, amended theorem.  A present, non-empty `nextToPlay` selects White
exactly on the value `W` and Black on any other non-empty value; an absent
`nextToPlay` — and likewise the (falsy) empty string, which the claim
mis-files under `any other value selects Black` — infers the side from the
sign map: Black when the black and white stone counts are equal, else
White.  The resulting side is the `pla` used in decoding, whose
`currentTurn` field is `B` exactly when the side is Black. -/
theorem determineNextPla_spec (nextToPlay : Option String) (signMap : List (List Int)) :
    (∀ str, nextToPlay = some str → str ≠ "" →
      determineNextPla nextToPlay signMap = (if str = "W" then -1 else 1)) ∧
    (nextToPlay = none ∨ nextToPlay = some "" →
      determineNextPla nextToPlay signMap =
        (if countStones signMap 1 = countStones signMap (-1) then 1 else -1)) ∧
    (∀ exp policy value miscvalue ownership size,
      (decodeItem exp policy value miscvalue ownership
          (determineNextPla nextToPlay signMap) size).currentTurn =
        (if determineNextPla nextToPlay signMap = 1 then "B" else "W")) := by
  refine ⟨?_, ?_, ?_⟩
  · intro str hstr hne
    subst hstr
    simp [determineNextPla, jsStrTruthy, hne]
  · intro h
    rcases h with h | h <;> subst h <;> simp [determineNextPla, jsStrTruthy]
  · intro exp policy value miscvalue ownership size
    rfl

/-- C10, counterexample.  With `nextToPlay` present but equal to the empty
string (a falsy value) on a board holding one black stone, the code falls
back to stone counting and selects White (−1); the claim's `any other value
selects Black` would demand Black (+1). -/
theorem determineNextPla_empty_string_not_black :
    determineNextPla (some "") [[1]] = -1 ∧ ((-1 : Int) ≠ 1) := by
  constructor
  · decide
  · decide

/-! ## Position-file (SGF) emitter

Shallow embedding of `buildSGF` from the board-recognition package. -/

/-- A detected stone (board-recognition `DetectedStone`). -/
structure DetectedStone where
  x : Nat
  y : Nat
  color : String
deriving DecidableEq, Repr

/-- The SGF coordinate alphabet. -/
def sgfAlpha : List Char := "abcdefghijklmnopqrstuvwxyz".toList

/-- Embeds `coord`: lowercase column letter then row letter
(`ALPHA[col] + ALPHA[row]`; indices past the alphabet do not occur for the
supported board sizes and default to a placeholder here). -/
def sgfCoord (col row : Nat) : String :=
  String.mk [sgfAlpha.getD col '?', sgfAlpha.getD row '?']

/-- The `AB` property block: empty when no black stone was detected. -/
def abBlock (black : List DetectedStone) : String :=
  if black = [] then ""
  else "AB" ++ String.join (black.map (fun s => "[" ++ sgfCoord s.x s.y ++ "]"))

/-- The `AW` property block: empty when no white stone was detected. -/
def awBlock (white : List DetectedStone) : String :=
  if white = [] then ""
  else "AW" ++ String.join (white.map (fun s => "[" ++ sgfCoord s.x s.y ++ "]"))

/-- Embeds `buildSGF`: root node with `GM`, `FF`, `SZ`, `AP` and the two
optional setup-stone blocks. -/
def buildSGF (boardSize : Nat) (stones : List DetectedStone) : String :=
  "(;" ++ ("GM[1]FF[4]SZ[" ++ toString boardSize ++ "]AP[Kaya Board Recognition]"
    ++ abBlock (stones.filter (fun s => s.color = "black"))
    ++ awBlock (stones.filter (fun s => s.color = "white"))) ++ "\n)"

/-! ## Claim C8: position-file emitter -/

/-- The alphabet lookup is the character `a` shifted by the index, for
in-range indices. -/
theorem sgfAlpha_getD (col : Nat) (h : col < 26) :
    (sgfAlpha.getD col '?').toNat = 97 + col := by
  revert h
  revert col
  decide

/-- `sgfCoord` is injective on in-range coordinates. -/
theorem sgfCoord_injOn (a b c d : Nat) (ha : a < 26) (hb : b < 26) (hc : c < 26)
    (hd : d < 26) (h : sgfCoord a b = sgfCoord c d) : a = c ∧ b = d := by
  unfold sgfCoord at h
  have h2 : [sgfAlpha.getD a '?', sgfAlpha.getD b '?'] =
      [sgfAlpha.getD c '?', sgfAlpha.getD d '?'] := by
    injection h
  have hac : sgfAlpha.getD a '?' = sgfAlpha.getD c '?' := by
    injection h2
  have hbd : sgfAlpha.getD b '?' = sgfAlpha.getD d '?' := by
    injection h2 with h2a h2b
    injection h2b
  constructor
  · have := congrArg Char.toNat hac
    rw [sgfAlpha_getD a ha, sgfAlpha_getD c hc] at this
    omega
  · have := congrArg Char.toNat hbd
    rw [sgfAlpha_getD b hb, sgfAlpha_getD d hd] at this
    omega

/-- C8, amended theorem.  The emitter serialises the board size (`SZ`
property) and the two colour-filtered stone lists: the emitted `AB` block
carries exactly the coordinates of the black stones in input order — so
each black coordinate appears at most once exactly when the black stones
have pairwise-distinct coordinates (the source performs no deduplication) —
symmetrically for `AW`; coordinates are the lowercase column-then-row
letters; and a colour with no stones contributes no property block at all. -/
theorem buildSGF_spec (boardSize : Nat) (stones : List DetectedStone) :
    (∃ pre suf, (buildSGF boardSize stones).data =
      pre ++ ("SZ[" ++ toString boardSize ++ "]").data ++ suf) ∧
    (stones.filter (fun s => s.color = "black") = [] →
      buildSGF boardSize stones =
        "(;" ++ ("GM[1]FF[4]SZ[" ++ toString boardSize ++ "]AP[Kaya Board Recognition]"
          ++ awBlock (stones.filter (fun s => s.color = "white"))) ++ "\n)") ∧
    (stones.filter (fun s => s.color = "white") = [] →
      buildSGF boardSize stones =
        "(;" ++ ("GM[1]FF[4]SZ[" ++ toString boardSize ++ "]AP[Kaya Board Recognition]"
          ++ abBlock (stones.filter (fun s => s.color = "black"))) ++ "\n)") ∧
    ((∀ st ∈ stones, st.x < 26 ∧ st.y < 26) →
      ((stones.filter (fun s => s.color = "black")).map
        (fun s => (s.x, s.y))).Nodup →
      ((stones.filter (fun s => s.color = "black")).map
        (fun s => sgfCoord s.x s.y)).Nodup) := by
  refine ⟨⟨("(;GM[1]FF[4]").data, ?_⟩, ?_, ?_, ?_⟩
  · refine ⟨("AP[Kaya Board Recognition]"
      ++ abBlock (stones.filter (fun s => s.color = "black"))
      ++ awBlock (stones.filter (fun s => s.color = "white")) ++ "\n)").data, ?_⟩
    unfold buildSGF
    simp [String.data_append]
  · intro h
    unfold buildSGF
    rw [h]
    show _ ++ (_ ++ abBlock [] ++ _) ++ _ = _
    rw [show abBlock [] = "" from rfl, String.append_empty]
  · intro h
    unfold buildSGF
    rw [h]
    show _ ++ (_ ++ _ ++ awBlock []) ++ _ = _
    rw [show awBlock [] = "" from rfl, String.append_empty]
  · intro hb hnd
    have hmap : (stones.filter (fun s => s.color = "black")).map
        (fun s => sgfCoord s.x s.y) =
        ((stones.filter (fun s => s.color = "black")).map (fun s => (s.x, s.y))).map
          (fun p => sgfCoord p.1 p.2) := by
      rw [List.map_map]
      rfl
    rw [hmap]
    apply List.Nodup.map_on ?_ hnd
    intro p hp q hq hcoord
    rw [List.mem_map] at hp hq
    obtain ⟨sp, hsp, hspe⟩ := hp
    obtain ⟨sq, hsq, hsqe⟩ := hq
    have hbp := hb sp (List.mem_of_mem_filter hsp)
    have hbq := hb sq (List.mem_of_mem_filter hsq)
    subst hspe
    subst hsqe
    have := sgfCoord_injOn sp.x sp.y sq.x sq.y hbp.1 hbp.2 hbq.1 hbq.2 hcoord
    simp [this.1, this.2]

/-- C8, counterexample input: the same black stone listed twice. -/
def c8Stones : List DetectedStone :=
  [ { x := 0, y := 0, color := "black" }, { x := 0, y := 0, color := "black" } ]

/-- C8, counterexample.  `buildSGF` performs no deduplication: with the
same black stone listed twice the coordinate `aa` is emitted twice inside
the `AB` block, so `each black coordinate at most once` fails. -/
theorem buildSGF_duplicate_not_deduplicated :
    buildSGF 9 c8Stones = "(;GM[1]FF[4]SZ[9]AP[Kaya Board Recognition]AB[aa][aa]\n)" ∧
    ¬ ((c8Stones.filter (fun s => s.color = "black")).map
        (fun s => sgfCoord s.x s.y)).Nodup := by
  constructor
  · rfl
  · decide

/-! ## Perspective warp

Shallow embedding of `solveLinear`, `computeHomography`, `invertMatrix3`,
`applyHomography` and `warpPerspective` from the board-recognition
package.  JS doubles are embedded as `ℚ`; where JS arithmetic yields
`NaN`/`Infinity` (division by zero at `outSize = 1`, out-of-range typed
array reads) the embedding collapses the same pixels to the byte 0 that
the `Uint8ClampedArray` store produces. -/

/-- A point, `[x, y]`. -/
abbrev Pt := ℚ × ℚ

/-- Raw RGBA image: flat byte list, width, height. -/
structure RawImage where
  data : List Nat
  width : Nat
  height : Nat
deriving DecidableEq, Repr

/-- Matrix entry `M[r][c]` of a row-list matrix (JS out-of-range reads do
not occur on the 8×8 system). -/
def mEntry (M : List (List ℚ)) (r c : Nat) : ℚ := (M.getD r []).getD c 0

/-- The partial-pivot row choice for a column: start at `col`, take any
later row with strictly larger absolute entry. -/
def pivotRow (M : List (List ℚ)) (col n : Nat) : Nat :=
  (List.range' (col + 1) (n - (col + 1))).foldl
    (fun best row => if |mEntry M row col| > |mEntry M best col| then row else best) col

/-- Swap two rows (`[M[col], M[maxRow]] = [M[maxRow], M[col]]`). -/
def swapRows (M : List (List ℚ)) (i j : Nat) : List (List ℚ) :=
  (M.set i (M.getD j [])).set j (M.getD i [])

/-- One column step of the Gauss-Jordan elimination in `solveLinear`:
partial pivot, singularity check against `1e-12`, then elimination of the
column from every other row (entries from `col` to `n`). -/
def elimStep (n : Nat) (M : List (List ℚ)) (col : Nat) : Option (List (List ℚ)) :=
  let M1 := swapRows M col (pivotRow M col n)
  if |mEntry M1 col col| < 1 / 10 ^ 12 then none
  else
    some ((List.range M1.length).map (fun row =>
      if row = col then M1.getD row []
      else
        let f := mEntry M1 row col / mEntry M1 col col
        (M1.getD row []).mapIdx (fun k v =>
          if col ≤ k then v - f * mEntry M1 col k else v)))

/-- Embeds `solveLinear`: augmented matrix, elimination over every column,
then `M[i][n] / M[i][i]`. -/
def solveLinear (A : List (List ℚ)) (b : List ℚ) : Option (List ℚ) :=
  let n := A.length
  let M0 := (A.zip b).map (fun rb => rb.1 ++ [rb.2])
  match (List.range n).foldl (fun om col => om.bind (fun M => elimStep n M col)) (some M0) with
  | none => none
  | some M => some ((List.range n).map (fun i => mEntry M i n / mEntry M i i))

/-- Embeds `computeHomography`: two rows per correspondence, `h8 = 1`. -/
def computeHomography (src dst : List Pt) : Option (List ℚ) :=
  let rows := (src.zip dst).flatMap (fun sd =>
    [ ([sd.1.1, sd.1.2, 1, 0, 0, 0, -sd.2.1 * sd.1.1, -sd.2.1 * sd.1.2], sd.2.1),
      ([0, 0, 0, sd.1.1, sd.1.2, 1, -sd.2.2 * sd.1.1, -sd.2.2 * sd.1.2], sd.2.2) ])
  match solveLinear (rows.map (fun r => r.1)) (rows.map (fun r => r.2)) with
  | none => none
  | some h => some (h ++ [1])

/-- Embeds `invertMatrix3` (adjugate over determinant, `1e-12` check). -/
def invertMatrix3 (m : List ℚ) : Option (List ℚ) :=
  let g := fun i => m.getD i 0
  let det := g 0 * (g 4 * g 8 - g 5 * g 7) - g 1 * (g 3 * g 8 - g 5 * g 6) +
    g 2 * (g 3 * g 7 - g 4 * g 6)
  if |det| < 1 / 10 ^ 12 then none
  else
    let inv := 1 / det
    some [ (g 4 * g 8 - g 5 * g 7) * inv, (g 2 * g 7 - g 1 * g 8) * inv,
      (g 1 * g 5 - g 2 * g 4) * inv, (g 5 * g 6 - g 3 * g 8) * inv,
      (g 0 * g 8 - g 2 * g 6) * inv, (g 2 * g 3 - g 0 * g 5) * inv,
      (g 3 * g 7 - g 4 * g 6) * inv, (g 1 * g 6 - g 0 * g 7) * inv,
      (g 0 * g 4 - g 1 * g 3) * inv ]

/-- Embeds `applyHomography` (projective division; `w = 0` does not occur
on the images warped here, and collapses to 0 in the `ℚ` embedding). -/
def applyHomography (H : List ℚ) (x y : ℚ) : Pt :=
  let g := fun i => H.getD i 0
  let w := g 6 * x + g 7 * y + g 8
  ((g 0 * x + g 1 * y + g 2) / w, (g 3 * x + g 4 * y + g 5) / w)

/-- JS `Math.round` (round half towards positive infinity). -/
def jsRound (q : ℚ) : Int := ⌊q + 1 / 2⌋

/-- The `Uint8ClampedArray` byte store: clamp an integer to `0..255`. -/
def clampByte (z : Int) : Nat :=
  if z < 0 then 0 else if z > 255 then 255 else z.toNat

/-- Byte read `data[i]` from image data (out-of-range reads yield
`undefined`, whose arithmetic the clamped store turns into 0; the
embedding reads 0 directly). -/
def px (img : RawImage) (i : Int) : ℚ :=
  if 0 ≤ i then (img.data.getD i.toNat 0 : ℚ) else 0

/-- The inverse homography used by `warpPerspective`
(`H ? invertMatrix3(H) : null`). -/
def warpHinv (corners : List Pt) (outSize : Nat) : Option (List ℚ) :=
  let dst : List Pt := [ (0, 0), ((outSize : ℚ) - 1, 0),
    ((outSize : ℚ) - 1, (outSize : ℚ) - 1), (0, (outSize : ℚ) - 1) ]
  match computeHomography corners dst with
  | none => none
  | some H => invertMatrix3 H

/-- Source coordinate of one output pixel: inverse homography when
available, else the direct-scaling fallback. -/
def srcCoord (img : RawImage) (hinv : Option (List ℚ)) (outSize : Nat)
    (ox oy : Nat) : Pt :=
  match hinv with
  | some Hi => applyHomography Hi (ox : ℚ) (oy : ℚ)
  | none =>
    (((ox : ℚ) / ((outSize : ℚ) - 1)) * ((img.width : ℚ) - 1),
     ((oy : ℚ) / ((outSize : ℚ) - 1)) * ((img.height : ℚ) - 1))

/-- The four RGBA bytes of one output pixel: bilinear interpolation inside
the source, nearest-neighbour with clamping outside; alpha is always
255. -/
def pixelBytes (img : RawImage) (hinv : Option (List ℚ)) (outSize : Nat)
    (ox oy : Nat) : List Nat :=
  let sc := srcCoord img hinv outSize ox oy
  let sx := sc.1
  let sy := sc.2
  let x0 : Int := ⌊sx⌋
  let y0 : Int := ⌊sy⌋
  let x1 : Int := x0 + 1
  let y1 : Int := y0 + 1
  let dx : ℚ := sx - x0
  let dy : ℚ := sy - y0
  if x0 < 0 ∨ y0 < 0 ∨ x1 ≥ (img.width : Int) ∨ y1 ≥ (img.height : Int) then
    let cx : Int := max 0 (min ((img.width : Int) - 1) (jsRound sx))
    let cy : Int := max 0 (min ((img.height : Int) - 1) (jsRound sy))
    let si : Int := (cy * (img.width : Int) + cx) * 4
    [ clampByte (jsRound (px img si)), clampByte (jsRound (px img (si + 1))),
      clampByte (jsRound (px img (si + 2))), 255 ]
  else
    let i00 : Int := (y0 * (img.width : Int) + x0) * 4
    let i10 : Int := (y0 * (img.width : Int) + x1) * 4
    let i01 : Int := (y1 * (img.width : Int) + x0) * 4
    let i11 : Int := (y1 * (img.width : Int) + x1) * 4
    let ch := fun c : Int => clampByte (jsRound (
      px img (i00 + c) * (1 - dx) * (1 - dy) + px img (i10 + c) * dx * (1 - dy) +
      px img (i01 + c) * (1 - dx) * dy + px img (i11 + c) * dx * dy))
    [ ch 0, ch 1, ch 2, 255 ]

/-- Embeds `warpPerspective`: row-major loop over the `outSize × outSize`
output writing four bytes per pixel. -/
def warpPerspective (img : RawImage) (corners : List Pt) (outSize : Nat) : RawImage :=
  let hinv := warpHinv corners outSize
  { data := (List.range (outSize * outSize)).flatMap
      (fun p => pixelBytes img hinv outSize (p % outSize) (p / outSize)),
    width := outSize,
    height := outSize }

/-- The nearest-neighbour branch of `pixelBytes` stores the byte read from
the clamped source pixel; both branches produce four bytes ending in
255. -/
theorem pixelBytes_length_alpha (img : RawImage) (hinv : Option (List ℚ))
    (outSize : Nat) (ox oy : Nat) :
    (pixelBytes img hinv outSize ox oy).length = 4 ∧
    (pixelBytes img hinv outSize ox oy).getD 3 0 = 255 := by
  constructor
  · simp only [pixelBytes]
    split <;> rfl
  · simp only [pixelBytes]
    split <;> rfl

/-- Length of a flat 4-byte-per-pixel build. -/
theorem flat4_length (f : Nat → List Nat) (hf : ∀ p, (f p).length = 4) (n : Nat) :
    ((List.range n).flatMap f).length = 4 * n := by
  induction n with
  | zero => simp
  | succ m ih =>
    rw [List.range_succ, List.flatMap_append]
    simp only [List.length_append, ih, List.flatMap_cons, List.flatMap_nil,
      List.append_nil, hf m]
    omega

/-- Byte `k` of pixel `p` in a flat 4-byte-per-pixel build. -/
theorem flat4_getD (f : Nat → List Nat) (hf : ∀ p, (f p).length = 4) (n : Nat)
    (p : Nat) (hp : p < n) (k : Nat) (hk : k < 4) :
    ((List.range n).flatMap f).getD (4 * p + k) 0 = (f p).getD k 0 := by
  induction n with
  | zero => omega
  | succ m ih =>
    rw [List.range_succ, List.flatMap_append]
    rcases Nat.lt_or_ge p m with hpm | hpm
    · rw [List.getD_append]
      · exact ih hpm
      · rw [flat4_length f hf m]
        omega
    · have hpe : p = m := by omega
      subst hpe
      rw [List.getD_append_right]
      · rw [flat4_length f hf p]
        simp only [List.flatMap_cons, List.flatMap_nil, List.append_nil]
        congr 1
        omega
      · rw [flat4_length f hf p]
        omega

/-! ## Claim C9: warp totality -/

/-- C9.  `warpPerspective` is total: for every source image, every corner
list (degenerate ones included — a singular homography system or a
non-invertible matrix merely selects the scaling fallback) and every
output size, it returns an `outSize × outSize` RGBA image with exactly
`4·outSize²` bytes whose alpha byte is 255 at every pixel; and whenever
the inverse homography is unavailable every pixel is produced by the
axis-aligned scaling fallback of the whole source image. -/
theorem warpPerspective_total (img : RawImage) (corners : List Pt) (outSize : Nat) :
    (warpPerspective img corners outSize).width = outSize ∧
    (warpPerspective img corners outSize).height = outSize ∧
    (warpPerspective img corners outSize).data.length = 4 * (outSize * outSize) ∧
    (∀ p, p < outSize * outSize →
      (warpPerspective img corners outSize).data.getD (4 * p + 3) 0 = 255) ∧
    (warpHinv corners outSize = none →
      (warpPerspective img corners outSize).data = (List.range (outSize * outSize)).flatMap
        (fun p => pixelBytes img none outSize (p % outSize) (p / outSize))) := by
  have hf : ∀ p, (pixelBytes img (warpHinv corners outSize) outSize
      (p % outSize) (p / outSize)).length = 4 :=
    fun p => (pixelBytes_length_alpha img _ outSize _ _).1
  have hdata : (warpPerspective img corners outSize).data =
      (List.range (outSize * outSize)).flatMap
        (fun p => pixelBytes img (warpHinv corners outSize) outSize
          (p % outSize) (p / outSize)) := rfl
  refine ⟨rfl, rfl, ?_, ?_, ?_⟩
  · rw [hdata]
    exact flat4_length _ hf (outSize * outSize)
  · intro p hp
    rw [hdata, flat4_getD _ hf (outSize * outSize) p hp 3 (by omega)]
    exact (pixelBytes_length_alpha img _ outSize _ _).2
  · intro hnone
    rw [hdata, hnone]

/-! ## MCTS

Shallow embedding of `_runMCTS`, `_expandNode` and `_parseMoveStr` of the
ONNX engine.  The collaborators living outside the repository sources —
the `@kaya/goboard` board type with `makeMove` / `signMap` access and ko
state, the neural evaluation `_evaluateSingleBuffered`, and `Math.sqrt` —
are abstracted as the fields of `MCTSEnv`; the claims proved below hold
for every behaviour of these. -/

/-- One history move (`{ color, x, y }`; a pass carries `x = y = -1`). -/
structure HistMove where
  color : Int
  x : Int
  y : Int
deriving DecidableEq, Repr

/-- Abstract collaborators of the MCTS loop, see the section comment. -/
structure MCTSEnv (Board : Type) where
  evalBoard : Board → Int → ℚ → List HistMove → AnalysisResult
  makeMove : Board → Int → Int × Int → Option Board
  getStone : Board → Int × Int → Int
  koVertexOf : Board → Int → Int → Option String
  passBoard : Board → Board
  sqrtQ : ℚ → ℚ

/-- An MCTS tree node (`{ N, W, P, children, expanded }`); the children
map is carried as an association list in insertion order. -/
inductive MCTSNode where
  | mk : Nat → ℚ → ℚ → Option (List (String × MCTSNode)) → Bool → MCTSNode

/-- Visit count `N`. -/
def MCTSNode.N : MCTSNode → Nat
  | .mk n _ _ _ _ => n

/-- Cumulative Black-frame value `W`. -/
def MCTSNode.W : MCTSNode → ℚ
  | .mk _ w _ _ _ => w

/-- Prior probability `P`. -/
def MCTSNode.P : MCTSNode → ℚ
  | .mk _ _ p _ _ => p

/-- Children map (insertion-ordered). -/
def MCTSNode.children : MCTSNode → Option (List (String × MCTSNode))
  | .mk _ _ _ c _ => c

/-- Expansion flag. -/
def MCTSNode.expanded : MCTSNode → Bool
  | .mk _ _ _ _ e => e

/-- Embeds `_parseMoveStr`.  `parseInt` on a suffix with no leading digits
yields `NaN` in JS, which makes every later use of the vertex fail; the
embedding returns `none` there, which takes the same failure paths. -/
def parseMoveStr (move : String) (size : Int) : Option (Int × Int) :=
  if move = "" ∨ move = "PASS" then none
  else
    let x : Int := match gtpLetters.findIdx? (fun c => c = (move.toList.getD 0 ' ').toUpper) with
      | some i => (i : Int)
      | none => -1
    match (move.drop 1).toNat? with
    | none => none
    | some n =>
      let y : Int := size - (n : Int)
      if x < 0 ∨ y < 0 ∨ y ≥ size then none else some (x, y)

/-- `hist.length >= 2 && hist[len-1].x < 0 && hist[len-2].x < 0`: game end
by two consecutive passes. -/
def lastTwoPasses (hist : List HistMove) : Bool :=
  if 2 ≤ hist.length then
    decide ((hist.getD (hist.length - 1) ⟨0, 0, 0⟩).x < 0) &&
    decide ((hist.getD (hist.length - 2) ⟨0, 0, 0⟩).x < 0)
  else false

/-- JS `hist.slice(-4)`. -/
def takeLast (n : Nat) (l : List HistMove) : List HistMove := l.drop (l.length - n)

/-- The PUCT score `q + c_puct · P · √max(N_parent, 1) / (1 + N_child)`
with `c_puct = 1.5` and `q` the child's value in the moving player's
frame (0 for an unvisited child). -/
def puct (sqrtQ : ℚ → ℚ) (parentN : Nat) (pla : Int) (child : MCTSNode) : ℚ :=
  let q : ℚ := if child.N > 0 then
      (if pla = 1 then child.W / (child.N : ℚ) else 1 - child.W / (child.N : ℚ)) else 0
  let u : ℚ := (3 / 2) * child.P * sqrtQ ((max parentN 1 : Nat) : ℚ) / (1 + (child.N : ℚ))
  q + u

/-- Index of the first PUCT-maximal child in iteration order (the source's
strict `>` update starting from `-Infinity`); `none` only on an empty
map. -/
def selectIdx (sqrtQ : ℚ → ℚ) (parentN : Nat) (cs : List (String × MCTSNode))
    (pla : Int) : Option Nat :=
  (cs.foldl (fun st mc =>
      let score := puct sqrtQ parentN pla mc.2
      match st with
      | (idx, none) => (idx + 1, some (idx, score))
      | (idx, some (bi, bs)) =>
        if score > bs then (idx + 1, some (idx, score)) else (idx + 1, some (bi, bs)))
    ((0 : Nat), (none : Option (Nat × ℚ)))).2.map (fun p => p.1)

/-- Applying the selected move during descent: a pass clones the board
(resetting ko) and appends a pass move to the last-4 history; a board move
parses the GTP string and calls the board library, `none` on either
failure (the source's `break`). -/
def applySelected {Board : Type} (env : MCTSEnv Board) (board : Board) (pla : Int)
    (hist : List HistMove) (size : Int) (move : String) :
    Option (Board × List HistMove) :=
  if move = "PASS" then
    some (env.passBoard board, takeLast 4 hist ++ [⟨pla, -1, -1⟩])
  else
    match parseMoveStr move size with
    | none => none
    | some xy =>
      match env.makeMove board pla xy with
      | none => none
      | some nb => some (nb, takeLast 4 hist ++ [⟨pla, xy.1, xy.2⟩])

/-- The suggestion filter of `_expandNode`: keep a pass; keep a board move
unless it equals the (truthy) ko vertex, fails to parse, or lands on an
occupied point. -/
def keepSuggestion (koV : Option String) (stoneAt : Int × Int → Int) (size : Int)
    (move : String) : Bool :=
  if move = "PASS" then true
  else if jsStrTruthy koV ∧ koV = some move then false
  else
    match parseMoveStr move size with
    | none => false
    | some xy => stoneAt xy = 0

/-- The children built by `_expandNode` from the evaluation's suggestions
(`P = probability, N = W = 0, expanded = false`); the engine's suggestion
moves are pairwise distinct, so the `Map.set` insertions are plain
appends. -/
def expandChildren (koV : Option String) (stoneAt : Int × Int → Int) (size : Int)
    (suggestions : List MoveSuggestion) : List (String × MCTSNode) :=
  suggestions.foldl (fun acc sug =>
    if keepSuggestion koV stoneAt size sug.move then
      acc ++ [(sug.move, MCTSNode.mk 0 0 sug.probability none false)]
    else acc) []

/-- Embeds `_expandNode`: fill the children map and set `expanded`. -/
def expandNode {Board : Type} (env : MCTSEnv Board) (node : MCTSNode)
    (ev : AnalysisResult) (board : Board) (pla : Int) (size : Int) : MCTSNode :=
  MCTSNode.mk node.N node.W node.P
    (some (expandChildren (env.koVertexOf board pla size) (env.getStone board) size
      ev.moveSuggestions)) true

/-- Leaf handling of one MCTS iteration: evaluate and expand an unexpanded
leaf (value = the evaluation's Black-frame win rate), else use the running
average (0.5 when unvisited); then back up at this node (`N += 1`,
`W += value`). -/
def leafStep {Board : Type} (env : MCTSEnv Board) (komi : ℚ) (size : Int)
    (node : MCTSNode) (board : Board) (pla : Int) (hist : List HistMove) :
    MCTSNode × ℚ :=
  if node.expanded = false then
    let ev := env.evalBoard board pla komi hist
    let node' := expandNode env node ev board pla size
    (MCTSNode.mk (node'.N + 1) (node'.W + ev.winRate) node'.P node'.children
      node'.expanded, ev.winRate)
  else
    let v : ℚ := if node.N > 0 then node.W / (node.N : ℚ) else 1 / 2
    (MCTSNode.mk (node.N + 1) (node.W + v) node.P node.children node.expanded, v)

/-- A member of the children list is structurally smaller than its node. -/
theorem sizeOf_child_lt (node : MCTSNode) (cs : List (String × MCTSNode))
    (hnc : node.children = some cs) (m : String) (c : MCTSNode)
    (hmem : (m, c) ∈ cs) : sizeOf c < sizeOf node := by
  cases node with
  | mk n w p ch e =>
    have hch : ch = some cs := by
      simpa [MCTSNode.children] using hnc
    subst hch
    have h1 := List.sizeOf_lt_of_mem hmem
    simp only [Prod.mk.sizeOf_spec] at h1
    simp only [MCTSNode.mk.sizeOf_spec, Option.some.sizeOf_spec]
    omega

/-- One MCTS iteration (selection, expansion/evaluation, backup), written
as structural descent: the source's explicit `path` array with a final
backup loop is realised by each recursion level backing up its own node
(`N += 1; W += value`), which performs the same updates. -/
def visitOnce {Board : Type} (env : MCTSEnv Board) (komi : ℚ) (size : Int)
    (node : MCTSNode) (board : Board) (pla : Int) (hist : List HistMove) :
    MCTSNode × ℚ :=
  match hnc : node.children with
  | some cs =>
    if node.expanded = true ∧ cs.isEmpty = false ∧ lastTwoPasses hist = false then
      match selectIdx env.sqrtQ node.N cs pla with
      | some i =>
        if hi : i < cs.length then
          let mc := cs.get ⟨i, hi⟩
          match applySelected env board pla hist size mc.1 with
          | some bh =>
            let r := visitOnce env komi size mc.2 bh.1 (-pla) bh.2
            (MCTSNode.mk (node.N + 1) (node.W + r.2) node.P
              (some (cs.set i (mc.1, r.1))) node.expanded, r.2)
          | none => leafStep env komi size node board pla hist
        else leafStep env komi size node board pla hist
      | none => leafStep env komi size node board pla hist
    else leafStep env komi size node board pla hist
  | none => leafStep env komi size node board pla hist
termination_by sizeOf node
decreasing_by
  simp_wf
  have hmem : cs.get ⟨i, hi⟩ ∈ cs := List.get_mem cs i hi
  exact sizeOf_child_lt node cs hnc (cs.get ⟨i, hi⟩).1 (cs.get ⟨i, hi⟩).2
    (by rwa [Prod.mk.eta])

/-- The per-visit loop of `_runMCTS` (`for (let v = 0; v < numVisits; v++)`),
each iteration starting its descent from the root position. -/
def mctsLoop {Board : Type} (env : MCTSEnv Board) (komi : ℚ) (size : Int)
    (board : Board) (pla : Int) (hist : List HistMove) :
    Nat → MCTSNode → MCTSNode
  | 0, root => root
  | Nat.succ n, root =>
    mctsLoop env komi size board pla hist n
      (visitOnce env komi size root board pla hist).1

/-- Embeds `_runMCTS`: run `numVisits` iterations from a fresh root, then
assemble the result from the root's children visit counts; score lead and
ownership come from the root evaluation (captured on the first iteration,
which evaluates exactly the root position — restated here as a direct
evaluation since the abstract evaluator is a function). -/
def runMCTS {Board : Type} (env : MCTSEnv Board) (rootBoard : Board) (nextPla : Int)
    (komi : ℚ) (history : List HistMove) (size : Int) (numVisits : Nat) :
    AnalysisResult :=
  let root := mctsLoop env komi size rootBoard nextPla history numVisits
    (MCTSNode.mk 0 0 1 none false)
  let rootEval := env.evalBoard rootBoard nextPla komi history
  let cs := root.children.getD []
  let totalChildVisits := (cs.map (fun c => c.2.N)).sum
  let sorted := cs.mergeSort (fun a b => decide (b.2.N ≤ a.2.N))
  { moveSuggestions := (sorted.take 10).map (fun mc =>
      { move := mc.1,
        probability := if totalChildVisits > 0 then
          ((mc.2.N : ℚ) / (totalChildVisits : ℚ)) else mc.2.P }),
    winRate := if root.N > 0 then root.W / (root.N : ℚ) else rootEval.winRate,
    scoreLead := rootEval.scoreLead,
    currentTurn := if nextPla = 1 then "B" else "W",
    ownership := rootEval.ownership,
    visits := some root.N }

/-! ## Claim C4: MCTS visit counting -/

/-- Leaf handling backs up exactly one visit at the leaf. -/
theorem leafStep_N {Board : Type} (env : MCTSEnv Board) (komi : ℚ) (size : Int)
    (node : MCTSNode) (board : Board) (pla : Int) (hist : List HistMove) :
    (leafStep env komi size node board pla hist).1.N = node.N + 1 := by
  unfold leafStep
  split
  · rfl
  · rfl

/-- Every MCTS iteration increments the entered node's visit count by
exactly one — on the descent path, at an expanded leaf, at a two-pass
terminal, and on every truncation (unparseable or illegal move). -/
theorem visitOnce_N {Board : Type} (env : MCTSEnv Board) (komi : ℚ) (size : Int)
    (node : MCTSNode) (board : Board) (pla : Int) (hist : List HistMove) :
    (visitOnce env komi size node board pla hist).1.N = node.N + 1 := by
  rw [visitOnce]
  repeat' first | split | (simp only [])
  all_goals first
    | rfl
    | exact leafStep_N env komi size node board pla hist

/-- The visit loop adds its iteration count to the root's visits. -/
theorem mctsLoop_N {Board : Type} (env : MCTSEnv Board) (komi : ℚ) (size : Int)
    (board : Board) (pla : Int) (hist : List HistMove) :
    ∀ (n : Nat) (root : MCTSNode),
      (mctsLoop env komi size board pla hist n root).N = root.N + n := by
  intro n
  induction n with
  | zero => intro root; simp [mctsLoop]
  | succ m ih =>
    intro root
    show (mctsLoop env komi size board pla hist m
      (visitOnce env komi size root board pla hist).1).N = root.N + (m + 1)
    rw [ih, visitOnce_N]
    omega

/-- C4.  For every starting position, komi, history and `numVisits > 1`
(and every behaviour of the board library and evaluator), each iteration's
backup increments the entered node's `N` by exactly one — including
iterations truncated by an illegal move or a two-pass terminal — and the
completed search reports `visits` equal to exactly `numVisits`. -/
theorem runMCTS_visits {Board : Type} (env : MCTSEnv Board) (rootBoard : Board)
    (nextPla : Int) (komi : ℚ) (history : List HistMove) (size : Int)
    (numVisits : Nat) (hv : 1 < numVisits) :
    (∀ node board pla hist,
      (visitOnce env komi size node board pla hist).1.N = node.N + 1) ∧
    (runMCTS env rootBoard nextPla komi history size numVisits).visits =
      some numVisits := by
  refine ⟨fun node board pla hist => visitOnce_N env komi size node board pla hist, ?_⟩
  have hvis : (runMCTS env rootBoard nextPla komi history size numVisits).visits =
      some (mctsLoop env komi size rootBoard nextPla history numVisits
        (MCTSNode.mk 0 0 1 none false)).N := rfl
  rw [hvis, mctsLoop_N]
  simp [MCTSNode.N]

/-- A trivial instantiation of the abstract board environment. -/
def trivialBoardEnv : MCTSEnv Unit :=
  { evalBoard := fun _ _ _ _ =>
      { moveSuggestions := [], winRate := 1 / 2, scoreLead := 0,
        currentTurn := "B", ownership := none, visits := none },
    makeMove := fun _ _ _ => none,
    getStone := fun _ _ => 0,
    koVertexOf := fun _ _ _ => none,
    passBoard := fun b => b,
    sqrtQ := fun q => q }

/-- C4, witness: two visits from an empty 9×9 root position report exactly
two root visits. -/
theorem runMCTS_visits_witness :
    (1 < 2) ∧
    ((∀ node board pla hist,
      (visitOnce trivialBoardEnv 0 9 node board pla hist).1.N = node.N + 1) ∧
    (runMCTS trivialBoardEnv () 1 0 [] 9 2).visits = some 2) :=
  ⟨by norm_num, runMCTS_visits trivialBoardEnv () 1 0 [] 9 2 (by norm_num)⟩

/-! ## Corner ordering

Shallow embedding of `orderCorners` from
`packages/board-recognition/src/corners.ts`.  The JS sort compares
`Math.atan2` values of the centroid offsets; for nonzero offsets that
comparison is an exact ordering on directions, embedded here without
transcendentals by the quadrant index `atanReg` refined by the cross
product (`atan2` is strictly increasing in the angle, with range
`(-π, π]`).  Modern JS `Array.prototype.sort` is stable, as is
`List.mergeSort`. -/

/-- 2-D cross product. -/
def cross (u v : Pt) : ℚ := u.1 * v.2 - u.2 * v.1

/-- Position of a nonzero vector's `atan2` value among the four bands
`(-π, 0)`, `{0}`, `(0, π)`, `{π}` (in increasing `atan2` order). -/
def atanReg (u : Pt) : Nat :=
  if u.2 < 0 then 0
  else if u.2 = 0 ∧ 0 < u.1 then 1
  else if 0 < u.2 then 2
  else 3

/-- Exact order `atan2 u < atan2 v` on nonzero vectors: compare bands,
then the cross product within a band. -/
def atanLt (u v : Pt) : Prop :=
  atanReg u < atanReg v ∨ (atanReg u = atanReg v ∧ 0 < cross u v)

instance atanLtDec (u v : Pt) : Decidable (atanLt u v) := by
  unfold atanLt
  infer_instance

/-- The ascending comparator handed to the sort
(`atan2(a−c) − atan2(b−c)` non-positive). -/
def atanLe (u v : Pt) : Prop := ¬ atanLt v u

instance atanLeDec (u v : Pt) : Decidable (atanLe u v) := by
  unfold atanLe
  infer_instance

/-- Centroid of the input points (`reduce` sums over `pts.length`). -/
def centroidOf (pts : List Pt) : Pt :=
  (((pts.map Prod.fst).sum) / pts.length, ((pts.map Prod.snd).sum) / pts.length)

/-- Offset of a point from a centre. -/
def offset (c p : Pt) : Pt := (p.1 - c.1, p.2 - c.2)

/-- The rotation anchor scan: index of the first point with minimal
`x + y` (`minSum` starts at `Infinity`, update on strict `<`). -/
def tlIndex (sorted : List Pt) : Nat :=
  (sorted.foldl (fun st p =>
      match st with
      | (i, tlIdx, none) => (i + 1, i, some (p.1 + p.2))
      | (i, tlIdx, some m) =>
        if p.1 + p.2 < m then (i + 1, i, some (p.1 + p.2))
        else (i + 1, tlIdx, some m))
    ((0 : Nat), (0 : Nat), (none : Option ℚ))).2.1

/-- Embeds `orderCorners`: sort by `atan2` around the centroid, then
rotate so that the minimal-`x+y` point comes first. -/
def orderCorners (pts : List Pt) : List Pt :=
  let c := centroidOf pts
  let sorted := pts.mergeSort (fun a b => decide (atanLe (offset c a) (offset c b)))
  (List.range 4).map (fun i => sorted.getD ((tlIndex sorted + i) % 4) (0, 0))

/-- Coordinate sum (the TL/BR diagonal score). -/
def sumXY (p : Pt) : ℚ := p.1 + p.2

/-- Twice the signed area of the quadrilateral `a b c d` (shoelace). -/
def shoelace (a b c d : Pt) : ℚ := cross a b + cross b c + cross c d + cross d a

/-- Turn (orientation) of the triple `a b c`. -/
def turn (a b c : Pt) : ℚ := cross (offset a b) (offset a c)

/-- Strictly convex, positively oriented 4-point cycle. -/
def strictlyConvexCCW (l : List Pt) : Bool :=
  match l with
  | [a, b, c, d] =>
    decide (0 < turn a b c) && decide (0 < turn b c d) &&
    decide (0 < turn c d a) && decide (0 < turn d a b)
  | _ => false

/-- The four points form a strictly convex quadrilateral in some cyclic
order (either orientation, since every permutation is tried). -/
def isConvexQuad (a b c d : Pt) : Bool :=
  ([a, b, c, d].permutations).any strictlyConvexCCW

/-- Two directions with distinct `atan2` values. -/
def AngDistinct (u v : Pt) : Prop := atanLt u v ∨ atanLt v u

instance angDistinctDec (u v : Pt) : Decidable (AngDistinct u v) := by
  unfold AngDistinct
  infer_instance

/-- General position for the corner orderer: no input point sits on the
centroid and the four centroid offsets have pairwise distinct `atan2`
values (no exact angular ties; a strictly convex quadrilateral can only
violate this by an exact tie, which general position excludes). -/
def GenPos (p0 p1 p2 p3 : Pt) : Prop :=
  (∀ p ∈ [p0, p1, p2, p3], offset (centroidOf [p0, p1, p2, p3]) p ≠ (0, 0)) ∧
  List.Pairwise (fun p q => AngDistinct (offset (centroidOf [p0, p1, p2, p3]) p)
    (offset (centroidOf [p0, p1, p2, p3]) q)) [p0, p1, p2, p3]

instance genPosDec (p0 p1 p2 p3 : Pt) : Decidable (GenPos p0 p1 p2 p3) := by
  unfold GenPos
  infer_instance

/-! ### Order facts for the exact atan2 comparator -/

theorem atanReg_le3 (u : Pt) : atanReg u ≤ 3 := by
  unfold atanReg
  split_ifs <;> omega

theorem atanReg0_y (u : Pt) (h : atanReg u = 0) : u.2 < 0 := by
  unfold atanReg at h
  split_ifs at h with h1 h2 h3
  all_goals first | omega | assumption

theorem atanReg1_xy (u : Pt) (h : atanReg u = 1) : u.2 = 0 ∧ 0 < u.1 := by
  unfold atanReg at h
  split_ifs at h with h1 h2 h3
  all_goals first | omega | assumption

theorem atanReg2_y (u : Pt) (h : atanReg u = 2) : 0 < u.2 := by
  unfold atanReg at h
  split_ifs at h with h1 h2 h3
  all_goals first | omega | assumption

theorem atanReg3_y (u : Pt) (h : atanReg u = 3) : u.2 = 0 := by
  unfold atanReg at h
  split_ifs at h with h1 h2 h3
  all_goals first | omega | linarith [lt_trichotomy u.2 (0 : ℚ)]

theorem atanReg3_x (u : Pt) (hu : u ≠ (0, 0)) (h : atanReg u = 3) : u.1 < 0 := by
  have hy := atanReg3_y u h
  unfold atanReg at h
  split_ifs at h with h1 h2 h3
  all_goals try omega
  rcases lt_trichotomy u.1 0 with hx | hx | hx
  · exact hx
  · exact absurd (Prod.ext hx hy) hu
  · exact absurd ⟨hy, hx⟩ h2

/-- The cyclic cross-product identity (the `y` row of the linear
dependence of three plane vectors). -/
theorem crossCycleY (u v w : Pt) :
    cross u v * w.2 + cross v w * u.2 + cross w u * v.2 = 0 := by
  unfold cross
  ring

theorem cross_antisymm (u v : Pt) : cross v u = -cross u v := by
  unfold cross
  ring

theorem atanLt_asymm (u v : Pt) (h : atanLt u v) : ¬ atanLt v u := by
  rcases h with h | ⟨he, hc⟩
  · rintro (h' | ⟨he', -⟩)
    · omega
    · omega
  · rintro (h' | ⟨-, hc'⟩)
    · omega
    · rw [cross_antisymm] at hc'
      linarith

theorem atanLt_trichotomy (u v : Pt) :
    atanLt u v ∨ atanLt v u ∨ (atanReg u = atanReg v ∧ cross u v = 0) := by
  rcases lt_trichotomy (atanReg u) (atanReg v) with h | h | h
  · exact Or.inl (Or.inl h)
  · rcases lt_trichotomy (cross u v) 0 with hc | hc | hc
    · refine Or.inr (Or.inl (Or.inr ⟨h.symm, ?_⟩))
      rw [cross_antisymm]
      linarith
    · exact Or.inr (Or.inr ⟨h, hc⟩)
    · exact Or.inl (Or.inr ⟨h, hc⟩)
  · exact Or.inr (Or.inl (Or.inl h))

/-- Within a strict-sign band, positivity of consecutive crosses transfers
to the outer pair (the algebraic core of transitivity). -/
theorem cross_trans_band (u v w : Pt) (hvy : v.2 < 0 ∨ 0 < v.2)
    (huy : (v.2 < 0 → u.2 < 0) ∧ (0 < v.2 → 0 < u.2))
    (hwy : (v.2 < 0 → w.2 < 0) ∧ (0 < v.2 → 0 < w.2))
    (h1 : 0 < cross u v) (h2 : 0 < cross v w) : 0 < cross u w := by
  have hid := crossCycleY u v w
  rw [show cross w u = -cross u w from cross_antisymm u w] at hid
  by_contra hle
  push_neg at hle
  rcases hvy with hv | hv
  · have hu := huy.1 hv
    have hw := hwy.1 hv
    nlinarith [mul_pos h1 (neg_pos.mpr hw), mul_pos h2 (neg_pos.mpr hu),
      mul_nonneg (neg_nonneg.mpr hle) (le_of_lt (neg_pos.mpr hv))]
  · have hu := huy.2 hv
    have hw := hwy.2 hv
    nlinarith [mul_pos h1 hw, mul_pos h2 hu,
      mul_nonneg (neg_nonneg.mpr hle) (le_of_lt hv)]

theorem atanLt_trans (u v w : Pt) (h1 : atanLt u v) (h2 : atanLt v w) :
    atanLt u w := by
  rcases h1 with h1 | ⟨he1, hc1⟩
  · rcases h2 with h2 | ⟨he2, hc2⟩
    · exact Or.inl (by omega)
    · exact Or.inl (by omega)
  · rcases h2 with h2 | ⟨he2, hc2⟩
    · exact Or.inl (by omega)
    · refine Or.inr ⟨by omega, ?_⟩
      have h3 := atanReg_le3 v
      have hv : atanReg v = 0 ∨ atanReg v = 1 ∨ atanReg v = 2 ∨ atanReg v = 3 := by omega
      rcases hv with hv | hv | hv | hv
      · exact cross_trans_band u v w (Or.inl (atanReg0_y v hv))
          ⟨fun _ => atanReg0_y u (by omega), fun h => absurd (atanReg0_y v hv) (by linarith)⟩
          ⟨fun _ => atanReg0_y w (by omega), fun h => absurd (atanReg0_y v hv) (by linarith)⟩
          hc1 hc2
      · have hu1 := atanReg1_xy u (by omega)
        have hv1 := atanReg1_xy v hv
        have : cross u v = 0 := by
          unfold cross
          rw [hu1.1, hv1.1]
          ring
        linarith
      · exact cross_trans_band u v w (Or.inr (atanReg2_y v hv))
          ⟨fun h => absurd (atanReg2_y v hv) (by linarith), fun _ => atanReg2_y u (by omega)⟩
          ⟨fun h => absurd (atanReg2_y v hv) (by linarith), fun _ => atanReg2_y w (by omega)⟩
          hc1 hc2
      · have hu3 := atanReg3_y u (by omega)
        have hv3 := atanReg3_y v hv
        have : cross u v = 0 := by
          unfold cross
          rw [hu3, hv3]
          ring
        linarith

/-- Angular equality (same band, zero cross) is compatible with the strict
order on the left. -/
theorem atanEq_compat (b c a : Pt) (he : atanReg b = atanReg c)
    (hz : cross b c = 0) (h : atanLt c a) : atanLt b a := by
  rcases h with h | ⟨he2, hc⟩
  · exact Or.inl (by omega)
  · refine Or.inr ⟨by omega, ?_⟩
    have h3 := atanReg_le3 c
    have hv : atanReg c = 0 ∨ atanReg c = 1 ∨ atanReg c = 2 ∨ atanReg c = 3 := by omega
    have hid := crossCycleY b c a
    rw [show cross a b = -cross b a from cross_antisymm b a, hz, zero_mul, zero_add] at hid
    by_contra hle
    push_neg at hle
    rcases hv with hv | hv | hv | hv
    · have hcy := atanReg0_y c hv
      have hby := atanReg0_y b (by omega)
      nlinarith [mul_pos hc (neg_pos.mpr hby),
        mul_nonneg (neg_nonneg.mpr hle) (le_of_lt (neg_pos.mpr hcy))]
    · have hcy := (atanReg1_xy c hv).1
      have hay := (atanReg1_xy a (by omega)).1
      have : cross c a = 0 := by
        unfold cross
        rw [hcy, hay]
        ring
      linarith
    · have hcy := atanReg2_y c hv
      have hby := atanReg2_y b (by omega)
      nlinarith [mul_pos hc hby,
        mul_nonneg (neg_nonneg.mpr hle) (le_of_lt hcy)]
    · have hcy := atanReg3_y c hv
      have hay := atanReg3_y a (by omega)
      have : cross c a = 0 := by
        unfold cross
        rw [hcy, hay]
        ring
      linarith

theorem atanLe_total (u v : Pt) : atanLe u v ∨ atanLe v u := by
  by_cases h : atanLt v u
  · exact Or.inr (atanLt_asymm v u h)
  · exact Or.inl h

theorem atanLe_trans (u v w : Pt) (h1 : atanLe u v) (h2 : atanLe v w) :
    atanLe u w := by
  intro hlt
  rcases atanLt_trichotomy w v with h | h | h
  · exact h2 h
  · exact h1 (atanLt_trans v w u h hlt)
  · exact h1 (atanEq_compat v w u h.1.symm (by rw [cross_antisymm]; linarith [h.2]) hlt)

/-- Non-wrap sector lemma: if `u < v` in angle but their cross is not
positive, any third corner angularly after `v` or before `u` makes
`cross v w` positive. -/
theorem sectorN (u v w : Pt) (hu : u ≠ (0, 0)) (hv : v ≠ (0, 0)) (hw : w ≠ (0, 0))
    (huv : atanLt u v) (hcross : cross u v ≤ 0)
    (hws : atanLt v w ∨ atanLt w u) : 0 < cross v w := by
  have hlt : atanReg u < atanReg v := by
    rcases huv with h | ⟨he, hc⟩
    · exact h
    · linarith
  have hu3 := atanReg_le3 u
  have hv3 := atanReg_le3 v
  have hpairs : (atanReg u = 0 ∧ atanReg v = 1) ∨ (atanReg u = 1 ∧ atanReg v = 2) ∨
      (atanReg u = 2 ∧ atanReg v = 3) ∨ (atanReg u = 0 ∧ atanReg v = 2) ∨
      (atanReg u = 0 ∧ atanReg v = 3) ∨ (atanReg u = 1 ∧ atanReg v = 3) := by
    omega
  rcases hpairs with ⟨hru, hrv⟩ | ⟨hru, hrv⟩ | ⟨hru, hrv⟩ | ⟨hru, hrv⟩ | ⟨hru, hrv⟩ | ⟨hru, hrv⟩
  · have hu0 := atanReg0_y u hru
    have hv1 := atanReg1_xy v hrv
    have hform : cross u v = -(u.2 * v.1) := by
      unfold cross
      rw [hv1.1]
      ring
    nlinarith [mul_pos (neg_pos.mpr hu0) hv1.2]
  · have hu1 := atanReg1_xy u hru
    have hv2 := atanReg2_y v hrv
    have hform : cross u v = u.1 * v.2 := by
      unfold cross
      rw [hu1.1]
      ring
    nlinarith [mul_pos hu1.2 hv2]
  · have hu2 := atanReg2_y u hru
    have hvy := atanReg3_y v hrv
    have hvx := atanReg3_x v hv hrv
    have hform : cross u v = -(u.2 * v.1) := by
      unfold cross
      rw [hvy]
      ring
    nlinarith [mul_pos hu2 (neg_pos.mpr hvx)]
  · have hu0 := atanReg0_y u hru
    have hv2 := atanReg2_y v hrv
    rcases hws with hvw | hwu
    · rcases hvw with h | ⟨he, hc⟩
      · have hw3 : atanReg w = 3 := by
          have := atanReg_le3 w
          omega
        have hwy := atanReg3_y w hw3
        have hwx := atanReg3_x w hw hw3
        have hform : cross v w = -(v.2 * w.1) := by
          unfold cross
          rw [hwy]
          ring
        nlinarith [mul_pos hv2 (neg_pos.mpr hwx)]
      · exact hc
    · rcases hwu with h | ⟨he, hc⟩
      · omega
      · have hwy : w.2 < 0 := atanReg0_y w (by omega)
        have hid := crossCycleY u v w
        by_contra hle
        push_neg at hle
        nlinarith [mul_nonneg (neg_nonneg.mpr hcross) (le_of_lt (neg_pos.mpr hwy)),
          mul_pos hc hv2,
          mul_nonneg (neg_nonneg.mpr hle) (le_of_lt (neg_pos.mpr hu0))]
  · have hu0 := atanReg0_y u hru
    have hvy := atanReg3_y v hrv
    have hvx := atanReg3_x v hv hrv
    rcases hws with hvw | hwu
    · rcases hvw with h | ⟨he, hc⟩
      · have := atanReg_le3 w
        omega
      · exact hc
    · rcases hwu with h | ⟨he, hc⟩
      · omega
      · have hwy : w.2 < 0 := atanReg0_y w (by omega)
        have hform : cross v w = v.1 * w.2 := by
          unfold cross
          rw [hvy]
          ring
        nlinarith [mul_pos (neg_pos.mpr hvx) (neg_pos.mpr hwy)]
  · have hu1 := atanReg1_xy u hru
    have hvy := atanReg3_y v hrv
    have hvx := atanReg3_x v hv hrv
    rcases hws with hvw | hwu
    · rcases hvw with h | ⟨he, hc⟩
      · have := atanReg_le3 w
        omega
      · exact hc
    · rcases hwu with h | ⟨he, hc⟩
      · have hwy : w.2 < 0 := atanReg0_y w (by omega)
        have hform : cross v w = v.1 * w.2 := by
          unfold cross
          rw [hvy]
          ring
        nlinarith [mul_pos (neg_pos.mpr hvx) (neg_pos.mpr hwy)]
      · have hwy := (atanReg1_xy w (by omega)).1
        have hzero : cross w u = 0 := by
          unfold cross
          rw [hwy, hu1.1]
          ring
        linarith
/-- Wrap sector lemma: three angularly increasing corners whose wrap-around
cross `c x a` is not positive force `cross a b` positive. -/
theorem sectorW (a b c : Pt) (hb : b ≠ (0, 0)) (hc : c ≠ (0, 0))
    (hab : atanLt a b) (hbc : atanLt b c) (hca : cross c a ≤ 0) : 0 < cross a b := by
  rcases hab with h | ⟨he, hcr⟩
  · have ha3 := atanReg_le3 a
    have hb3 := atanReg_le3 b
    have hpairs : (atanReg a = 0 ∧ atanReg b = 1) ∨ (atanReg a = 1 ∧ atanReg b = 2) ∨
        (atanReg a = 2 ∧ atanReg b = 3) ∨ (atanReg a = 0 ∧ atanReg b = 2) ∨
        (atanReg a = 0 ∧ atanReg b = 3) ∨ (atanReg a = 1 ∧ atanReg b = 3) := by
      omega
    rcases hpairs with ⟨hra, hrb⟩ | ⟨hra, hrb⟩ | ⟨hra, hrb⟩ | ⟨hra, hrb⟩ | ⟨hra, hrb⟩ | ⟨hra, hrb⟩
    · have ha0 := atanReg0_y a hra
      have hb1 := atanReg1_xy b hrb
      have hform : cross a b = -(a.2 * b.1) := by
        unfold cross
        rw [hb1.1]
        ring
      nlinarith [mul_pos (neg_pos.mpr ha0) hb1.2]
    · have ha1 := atanReg1_xy a hra
      have hb2 := atanReg2_y b hrb
      have hform : cross a b = a.1 * b.2 := by
        unfold cross
        rw [ha1.1]
        ring
      nlinarith [mul_pos ha1.2 hb2]
    · have ha2 := atanReg2_y a hra
      have hby := atanReg3_y b hrb
      have hbx := atanReg3_x b hb hrb
      have hform : cross a b = -(a.2 * b.1) := by
        unfold cross
        rw [hby]
        ring
      nlinarith [mul_pos ha2 (neg_pos.mpr hbx)]
    · have ha0 := atanReg0_y a hra
      have hb2 := atanReg2_y b hrb
      rcases hbc with h2 | ⟨he2, hc2⟩
      · have hc3 : atanReg c = 3 := by
          have := atanReg_le3 c
          omega
        have hcy := atanReg3_y c hc3
        have hcx := atanReg3_x c hc hc3
        have hform : cross c a = c.1 * a.2 := by
          unfold cross
          rw [hcy]
          ring
        nlinarith [mul_pos (neg_pos.mpr hcx) (neg_pos.mpr ha0)]
      · have hcy : 0 < c.2 := atanReg2_y c (by omega)
        have hid := crossCycleY a b c
        by_contra hle
        push_neg at hle
        nlinarith [mul_nonneg (neg_nonneg.mpr hle) (le_of_lt hcy),
          mul_pos hc2 (neg_pos.mpr ha0),
          mul_nonneg (neg_nonneg.mpr hca) (le_of_lt hb2)]
    · rcases hbc with h2 | ⟨he2, hc2⟩
      · have := atanReg_le3 c
        omega
      · have hby := atanReg3_y b hrb
        have hcy := atanReg3_y c (by omega)
        have hzero : cross b c = 0 := by
          unfold cross
          rw [hby, hcy]
          ring
        linarith
    · rcases hbc with h2 | ⟨he2, hc2⟩
      · have := atanReg_le3 c
        omega
      · have hby := atanReg3_y b hrb
        have hcy := atanReg3_y c (by omega)
        have hzero : cross b c = 0 := by
          unfold cross
          rw [hby, hcy]
          ring
        linarith
  · exact hcr

/-- Four nonzero vectors in strictly increasing angular order whose sum is
zero have all four cyclic cross products positive (they wind once around
the origin counter-clockwise). -/
theorem keyCross (d0 d1 d2 d3 : Pt)
    (h0 : d0 ≠ (0, 0)) (h1 : d1 ≠ (0, 0)) (h2 : d2 ≠ (0, 0)) (h3 : d3 ≠ (0, 0))
    (h01 : atanLt d0 d1) (h12 : atanLt d1 d2) (h23 : atanLt d2 d3)
    (hsx : d0.1 + d1.1 + d2.1 + d3.1 = 0) (hsy : d0.2 + d1.2 + d2.2 + d3.2 = 0) :
    0 < cross d0 d1 ∧ 0 < cross d1 d2 ∧ 0 < cross d2 d3 ∧ 0 < cross d3 d0 := by
  refine ⟨?_, ?_, ?_, ?_⟩
  · by_contra hle
    push_neg at hle
    have hA : 0 < cross d1 d2 := sectorN d0 d1 d2 h0 h1 h2 h01 hle (Or.inl h12)
    have hB : 0 < cross d1 d3 :=
      sectorN d0 d1 d3 h0 h1 h3 h01 hle (Or.inl (atanLt_trans d1 d2 d3 h12 h23))
    have hanti : cross d1 d0 = -cross d0 d1 := cross_antisymm d0 d1
    have hdd : cross d1 d1 = 0 := by
      unfold cross
      ring
    have hsum : cross d1 d0 + cross d1 d1 + cross d1 d2 + cross d1 d3 = 0 := by
      unfold cross
      linear_combination d1.1 * hsy - d1.2 * hsx
    linarith
  · by_contra hle
    push_neg at hle
    have hA : 0 < cross d2 d3 := sectorN d1 d2 d3 h1 h2 h3 h12 hle (Or.inl h23)
    have hB : 0 < cross d2 d0 := sectorN d1 d2 d0 h1 h2 h0 h12 hle (Or.inr h01)
    have hanti : cross d2 d1 = -cross d1 d2 := cross_antisymm d1 d2
    have hdd : cross d2 d2 = 0 := by
      unfold cross
      ring
    have hsum : cross d2 d0 + cross d2 d1 + cross d2 d2 + cross d2 d3 = 0 := by
      unfold cross
      linear_combination d2.1 * hsy - d2.2 * hsx
    linarith
  · by_contra hle
    push_neg at hle
    have hA : 0 < cross d3 d0 :=
      sectorN d2 d3 d0 h2 h3 h0 h23 hle (Or.inr (atanLt_trans d0 d1 d2 h01 h12))
    have hB : 0 < cross d3 d1 := sectorN d2 d3 d1 h2 h3 h1 h23 hle (Or.inr h12)
    have hanti : cross d3 d2 = -cross d2 d3 := cross_antisymm d2 d3
    have hdd : cross d3 d3 = 0 := by
      unfold cross
      ring
    have hsum : cross d3 d0 + cross d3 d1 + cross d3 d2 + cross d3 d3 = 0 := by
      unfold cross
      linear_combination d3.1 * hsy - d3.2 * hsx
    linarith
  · by_contra hle
    push_neg at hle
    have hA : 0 < cross d0 d1 :=
      sectorW d0 d1 d3 h1 h3 h01 (atanLt_trans d1 d2 d3 h12 h23) hle
    have hB : 0 < cross d0 d2 :=
      sectorW d0 d2 d3 h2 h3 (atanLt_trans d0 d1 d2 h01 h12) h23 hle
    have hanti : cross d0 d3 = -cross d3 d0 := cross_antisymm d3 d0
    have hdd : cross d0 d0 = 0 := by
      unfold cross
      ring
    have hsum : cross d0 d0 + cross d0 d1 + cross d0 d2 + cross d0 d3 = 0 := by
      unfold cross
      linear_combination d0.1 * hsy - d0.2 * hsx
    linarith

theorem list_len_four {α : Type} (l : List α) (h : l.length = 4) :
    ∃ a b c d, l = [a, b, c, d] := by
  rcases l with - | ⟨a, l⟩
  · simp at h
  rcases l with - | ⟨b, l⟩
  · simp at h
  rcases l with - | ⟨c2, l⟩
  · simp at h
  rcases l with - | ⟨d, l⟩
  · simp at h
  rcases l with - | ⟨e, l⟩
  · exact ⟨a, b, c2, d, rfl⟩
  · simp only [List.length_cons] at h
    omega

theorem tlIndex_lt_four (a b c d : Pt) : tlIndex [a, b, c, d] < 4 := by
  unfold tlIndex
  simp only [List.foldl]
  repeat' first | split_ifs | simp only [apply_ite]
  all_goals norm_num

theorem tlIndex_min_four (a b c d : Pt) (j : Nat) (hj : j < 4) :
    sumXY ([a, b, c, d].getD (tlIndex [a, b, c, d]) (0, 0)) ≤
      sumXY ([a, b, c, d].getD j (0, 0)) := by
  interval_cases j <;>
    (unfold tlIndex sumXY
     simp only [List.foldl]
     repeat' first | split_ifs | simp only [apply_ite]
     all_goals (simp [List.getD]; try linarith))

/-- C7: for four points forming a strictly convex quadrilateral in general
position (no point on the centroid, no exact angular ties around it),
`orderCorners` returns the four points in a cyclic order that starts at a
minimal `x + y` corner (so the first corner's coordinate sum is at most the
second corner's) and traverses them counter-clockwise in the y-up frame
(positive shoelace). The spec's remaining part - that the first corner's
`y` is at most the fourth corner's - is refuted separately. -/
theorem orderCorners_spec (p0 p1 p2 p3 : Pt)
    (hconv : isConvexQuad p0 p1 p2 p3 = true)
    (hgp : GenPos p0 p1 p2 p3) :
    ∃ tl tr br bl, orderCorners [p0, p1, p2, p3] = [tl, tr, br, bl] ∧
      sumXY tl ≤ sumXY tr ∧ 0 < shoelace tl tr br bl := by
  obtain ⟨hnz, hpw⟩ := hgp
  have htrans : ∀ x y z : Pt,
      decide (atanLe (offset (centroidOf [p0, p1, p2, p3]) x) (offset (centroidOf [p0, p1, p2, p3]) y)) = true →
      decide (atanLe (offset (centroidOf [p0, p1, p2, p3]) y) (offset (centroidOf [p0, p1, p2, p3]) z)) = true →
      decide (atanLe (offset (centroidOf [p0, p1, p2, p3]) x) (offset (centroidOf [p0, p1, p2, p3]) z)) = true := by
    intro x y z h1 h2
    exact decide_eq_true
      (atanLe_trans _ _ _ (of_decide_eq_true h1) (of_decide_eq_true h2))
  have htot : ∀ x y : Pt,
      (decide (atanLe (offset (centroidOf [p0, p1, p2, p3]) x) (offset (centroidOf [p0, p1, p2, p3]) y)) ||
        decide (atanLe (offset (centroidOf [p0, p1, p2, p3]) y) (offset (centroidOf [p0, p1, p2, p3]) x))) = true := by
    intro x y
    rcases atanLe_total (offset (centroidOf [p0, p1, p2, p3]) x) (offset (centroidOf [p0, p1, p2, p3]) y) with h | h
    · simp [decide_eq_true h]
    · simp [decide_eq_true h]
  have hlen : ([p0, p1, p2, p3].mergeSort
      (fun a b => decide (atanLe (offset (centroidOf [p0, p1, p2, p3]) a) (offset (centroidOf [p0, p1, p2, p3]) b)))).length = 4 := by
    rw [(List.mergeSort_perm [p0, p1, p2, p3] _).length_eq]
    rfl
  obtain ⟨q0, q1, q2, q3, hS⟩ := list_len_four _ hlen
  have hperm : List.Perm [q0, q1, q2, q3] [p0, p1, p2, p3] := by
    rw [← hS]
    exact List.mergeSort_perm _ _
  have hsp := List.sorted_mergeSort htrans htot [p0, p1, p2, p3]
  rw [hS] at hsp
  have hle01 : atanLe (offset (centroidOf [p0, p1, p2, p3]) q0) (offset (centroidOf [p0, p1, p2, p3]) q1) :=
    of_decide_eq_true (List.rel_of_pairwise_cons hsp (by simp))
  have hle12 : atanLe (offset (centroidOf [p0, p1, p2, p3]) q1) (offset (centroidOf [p0, p1, p2, p3]) q2) :=
    of_decide_eq_true (List.rel_of_pairwise_cons hsp.of_cons (by simp))
  have hle23 : atanLe (offset (centroidOf [p0, p1, p2, p3]) q2) (offset (centroidOf [p0, p1, p2, p3]) q3) :=
    of_decide_eq_true (List.rel_of_pairwise_cons hsp.of_cons.of_cons (by simp))
  have hpwS : List.Pairwise (fun p q => AngDistinct (offset (centroidOf [p0, p1, p2, p3]) p)
      (offset (centroidOf [p0, p1, p2, p3]) q)) [q0, q1, q2, q3] :=
    (List.Perm.pairwise_iff (fun h => Or.symm h) hperm).mpr hpw
  have hd01 := List.rel_of_pairwise_cons hpwS (by simp : q1 ∈ [q1, q2, q3])
  have hd12 := List.rel_of_pairwise_cons hpwS.of_cons (by simp : q2 ∈ [q2, q3])
  have hd23 := List.rel_of_pairwise_cons hpwS.of_cons.of_cons (by simp : q3 ∈ [q3])
  have h01 : atanLt (offset (centroidOf [p0, p1, p2, p3]) q0) (offset (centroidOf [p0, p1, p2, p3]) q1) := hd01.resolve_right hle01
  have h12 : atanLt (offset (centroidOf [p0, p1, p2, p3]) q1) (offset (centroidOf [p0, p1, p2, p3]) q2) := hd12.resolve_right hle12
  have h23 : atanLt (offset (centroidOf [p0, p1, p2, p3]) q2) (offset (centroidOf [p0, p1, p2, p3]) q3) := hd23.resolve_right hle23
  have hz0 : offset (centroidOf [p0, p1, p2, p3]) q0 ≠ (0, 0) := hnz q0 (hperm.subset (by simp))
  have hz1 : offset (centroidOf [p0, p1, p2, p3]) q1 ≠ (0, 0) := hnz q1 (hperm.subset (by simp))
  have hz2 : offset (centroidOf [p0, p1, p2, p3]) q2 ≠ (0, 0) := hnz q2 (hperm.subset (by simp))
  have hz3 : offset (centroidOf [p0, p1, p2, p3]) q3 ≠ (0, 0) := hnz q3 (hperm.subset (by simp))
  have hC1 : ((centroidOf [p0, p1, p2, p3]) : Pt).1 = (p0.1 + p1.1 + p2.1 + p3.1) / 4 := by
    simp [centroidOf]
    ring
  have hC2 : ((centroidOf [p0, p1, p2, p3]) : Pt).2 = (p0.2 + p1.2 + p2.2 + p3.2) / 4 := by
    simp [centroidOf]
    ring
  have hpsumx : (offset (centroidOf [p0, p1, p2, p3]) p0).1 + (offset (centroidOf [p0, p1, p2, p3]) p1).1 +
      (offset (centroidOf [p0, p1, p2, p3]) p2).1 + (offset (centroidOf [p0, p1, p2, p3]) p3).1 = 0 := by
    simp only [offset]
    rw [hC1]
    ring
  have hpsumy : (offset (centroidOf [p0, p1, p2, p3]) p0).2 + (offset (centroidOf [p0, p1, p2, p3]) p1).2 +
      (offset (centroidOf [p0, p1, p2, p3]) p2).2 + (offset (centroidOf [p0, p1, p2, p3]) p3).2 = 0 := by
    simp only [offset]
    rw [hC2]
    ring
  have hmx := List.Perm.sum_eq (List.Perm.map (fun p => (offset (centroidOf [p0, p1, p2, p3]) p).1) hperm)
  have hmy := List.Perm.sum_eq (List.Perm.map (fun p => (offset (centroidOf [p0, p1, p2, p3]) p).2) hperm)
  simp only [List.map_cons, List.map_nil, List.sum_cons, List.sum_nil, add_zero] at hmx hmy
  have hqx : (offset (centroidOf [p0, p1, p2, p3]) q0).1 + (offset (centroidOf [p0, p1, p2, p3]) q1).1 +
      (offset (centroidOf [p0, p1, p2, p3]) q2).1 + (offset (centroidOf [p0, p1, p2, p3]) q3).1 = 0 := by linarith
  have hqy : (offset (centroidOf [p0, p1, p2, p3]) q0).2 + (offset (centroidOf [p0, p1, p2, p3]) q1).2 +
      (offset (centroidOf [p0, p1, p2, p3]) q2).2 + (offset (centroidOf [p0, p1, p2, p3]) q3).2 = 0 := by linarith
  obtain ⟨k01, k12, k23, k30⟩ := keyCross (offset (centroidOf [p0, p1, p2, p3]) q0) (offset (centroidOf [p0, p1, p2, p3]) q1)
    (offset (centroidOf [p0, p1, p2, p3]) q2) (offset (centroidOf [p0, p1, p2, p3]) q3) hz0 hz1 hz2 hz3 h01 h12 h23 hqx hqy
  have hsh : 0 < shoelace q0 q1 q2 q3 := by
    have hrw : shoelace q0 q1 q2 q3 =
        cross (offset (centroidOf [p0, p1, p2, p3]) q0) (offset (centroidOf [p0, p1, p2, p3]) q1) +
        cross (offset (centroidOf [p0, p1, p2, p3]) q1) (offset (centroidOf [p0, p1, p2, p3]) q2) +
        cross (offset (centroidOf [p0, p1, p2, p3]) q2) (offset (centroidOf [p0, p1, p2, p3]) q3) +
        cross (offset (centroidOf [p0, p1, p2, p3]) q3) (offset (centroidOf [p0, p1, p2, p3]) q0) := by
      simp only [shoelace, cross, offset]
      ring
    rw [hrw]
    linarith
  have ht4 : tlIndex [q0, q1, q2, q3] < 4 := tlIndex_lt_four q0 q1 q2 q3
  have hoc0 : orderCorners [p0, p1, p2, p3] = (List.range 4).map
      (fun i => ([p0, p1, p2, p3].mergeSort
        (fun a b => decide (atanLe (offset (centroidOf [p0, p1, p2, p3]) a) (offset (centroidOf [p0, p1, p2, p3]) b)))).getD
        ((tlIndex ([p0, p1, p2, p3].mergeSort
          (fun a b => decide (atanLe (offset (centroidOf [p0, p1, p2, p3]) a) (offset (centroidOf [p0, p1, p2, p3]) b)))) + i) % 4)
        (0, 0)) := rfl
  rw [hS] at hoc0
  rw [show (List.range 4) = [0, 1, 2, 3] from rfl] at hoc0
  simp only [List.map_cons, List.map_nil] at hoc0
  have hcase : tlIndex [q0, q1, q2, q3] = 0 ∨ tlIndex [q0, q1, q2, q3] = 1 ∨
      tlIndex [q0, q1, q2, q3] = 2 ∨ tlIndex [q0, q1, q2, q3] = 3 := by omega
  rcases hcase with ht | ht | ht | ht
  · rw [ht] at hoc0
    norm_num [List.getD] at hoc0
    refine ⟨q0, q1, q2, q3, hoc0, ?_, hsh⟩
    have hm := tlIndex_min_four q0 q1 q2 q3 1 (by norm_num)
    rw [ht] at hm
    simpa [List.getD] using hm
  · rw [ht] at hoc0
    norm_num [List.getD] at hoc0
    refine ⟨q1, q2, q3, q0, hoc0, ?_, ?_⟩
    · have hm := tlIndex_min_four q0 q1 q2 q3 2 (by norm_num)
      rw [ht] at hm
      simpa [List.getD] using hm
    · have hr : shoelace q1 q2 q3 q0 = shoelace q0 q1 q2 q3 := by
        simp only [shoelace, cross]
        ring
      rw [hr]
      exact hsh
  · rw [ht] at hoc0
    norm_num [List.getD] at hoc0
    refine ⟨q2, q3, q0, q1, hoc0, ?_, ?_⟩
    · have hm := tlIndex_min_four q0 q1 q2 q3 3 (by norm_num)
      rw [ht] at hm
      simpa [List.getD] using hm
    · have hr : shoelace q2 q3 q0 q1 = shoelace q0 q1 q2 q3 := by
        simp only [shoelace, cross]
        ring
      rw [hr]
      exact hsh
  · rw [ht] at hoc0
    norm_num [List.getD] at hoc0
    refine ⟨q3, q0, q1, q2, hoc0, ?_, ?_⟩
    · have hm := tlIndex_min_four q0 q1 q2 q3 0 (by norm_num)
      rw [ht] at hm
      simpa [List.getD] using hm
    · have hr : shoelace q3 q0 q1 q2 = shoelace q0 q1 q2 q3 := by
        simp only [shoelace, cross]
        ring
      rw [hr]
      exact hsh

/-- Witness for C7: the unit square is a strictly convex quadrilateral in
general position, and `orderCorners` on it satisfies the proved ordering
properties. -/
theorem orderCorners_spec_witness :
    isConvexQuad (0, 0) (1, 0) (1, 1) (0, 1) = true ∧
    GenPos (0, 0) (1, 0) (1, 1) (0, 1) ∧
    ∃ tl tr br bl, orderCorners [(0, 0), (1, 0), (1, 1), (0, 1)] = [tl, tr, br, bl] ∧
      sumXY tl ≤ sumXY tr ∧ 0 < shoelace tl tr br bl := by
  have h1 : isConvexQuad (0, 0) (1, 0) (1, 1) (0, 1) = true := by
    apply List.any_eq_true.mpr
    refine ⟨[(0, 0), (1, 0), (1, 1), (0, 1)], ?_, ?_⟩
    · exact List.mem_permutations.mpr (List.Perm.refl _)
    · norm_num [strictlyConvexCCW, turn, cross, offset]
  have h2 : GenPos (0, 0) (1, 0) (1, 1) (0, 1) := by
    constructor
    · intro p hp
      simp only [List.mem_cons, List.not_mem_nil, or_false] at hp
      rcases hp with rfl | rfl | rfl | rfl <;>
        (intro h
         have h1 := congrArg Prod.fst h
         norm_num [offset, centroidOf] at h1)
    · norm_num [List.pairwise_cons, AngDistinct, atanLt, atanReg, cross, offset, centroidOf]
  exact ⟨h1, h2, orderCorners_spec (0, 0) (1, 0) (1, 1) (0, 1) h1 h2⟩

/-- C7 counterexample: the strictly convex, general-position quadrilateral
`(0,2), (2,1), (3,1), (5,0)` is ordered by `orderCorners` as
`[(0,2), (2,1), (5,0), (3,1)]`, whose first corner has `y = 2` while the
fourth has `y = 1` - so the claimed `TL.y ≤ BL.y` fails. -/
theorem orderCorners_TL_not_above_BL :
    isConvexQuad (0, 2) (2, 1) (3, 1) (5, 0) = true ∧
    GenPos (0, 2) (2, 1) (3, 1) (5, 0) ∧
    orderCorners [(0, 2), (2, 1), (3, 1), (5, 0)] = [(0, 2), (2, 1), (5, 0), (3, 1)] ∧
    ¬ (((orderCorners [(0, 2), (2, 1), (3, 1), (5, 0)]).getD 0 (0, 0)).2 ≤
        ((orderCorners [(0, 2), (2, 1), (3, 1), (5, 0)]).getD 3 (0, 0)).2) := by
  have hoc : orderCorners [(0, 2), (2, 1), (3, 1), (5, 0)] =
      [(0, 2), (2, 1), (5, 0), (3, 1)] := by
    norm_num [orderCorners, centroidOf, offset, atanLe, atanLt, atanReg, cross, tlIndex,
      List.mergeSort, List.foldl, decide_eq_true_eq, List.range_succ]
  refine ⟨?_, ?_, hoc, ?_⟩
  · apply List.any_eq_true.mpr
    refine ⟨[(0, 2), (2, 1), (5, 0), (3, 1)], ?_, ?_⟩
    · exact List.mem_permutations.mpr
        (List.Perm.cons _ (List.Perm.cons _ (List.Perm.swap _ _ _)))
    · norm_num [strictlyConvexCCW, turn, cross, offset]
  · constructor
    · intro p hp
      simp only [List.mem_cons, List.not_mem_nil, or_false] at hp
      rcases hp with rfl | rfl | rfl | rfl <;>
        (intro h
         have h1 := congrArg Prod.fst h
         norm_num [offset, centroidOf] at h1)
    · norm_num [List.pairwise_cons, AngDistinct, atanLt, atanReg, cross, offset, centroidOf]
  · rw [hoc]
    norm_num [List.getD]

end Kaya
